import Mathlib

/-!
Verification of the vector-store and text-chunking core of the my_rag_chat
repository (src/core/vector_db.py and src/core/document_processor.py).

The Python code is shallowly embedded:
* Python strings become `List Char`; `str.find`, `str.rfind`, slicing and
  `str.strip` are modelled with Python's index-clamping semantics (negative
  indices wrap, out-of-range indices clamp).
* The FAISS flat L2 index becomes a `List (List ℚ)` of stored vectors in
  insertion order; squared L2 distance is exact rational arithmetic.
* Python dicts (insertion ordered, unique keys) become association lists
  `List (String × _)`; `d[k] = v` is modelled by `dictInsert` (overwrite in
  place if the key exists, else append), `del d[k]` by `dictErase`.
* Fallible operations return `Except`, carrying the mutated state at the
  point the exception was raised (Python exceptions do not roll back
  in-memory mutations).
-/

/-! ### Python string primitives -/

/-- Whitespace characters recognised by Python `str.strip()` (ASCII range). -/
def pyIsSpace (c : Char) : Bool :=
  c = ' ' || c = '\t' || c = '\n' || c = '\r' || c = '\x0b' || c = '\x0c'

/-- Python `s.strip()`: drop leading and trailing whitespace. -/
def pyStrip (l : List Char) : List Char :=
  ((l.dropWhile pyIsSpace).reverse.dropWhile pyIsSpace).reverse

/-- Python slice-index adjustment: negative indices count from the end,
results are clamped to `[0, len]`. -/
def clampIdx (len : Nat) (i : Int) : Nat :=
  let j : Int := if i < 0 then i + len else i
  if j < 0 then 0 else min j.toNat len

/-- `pat` occurs in `text` at position `k` (as a contiguous sublist). -/
def occursAt (text pat : List Char) (k : Nat) : Bool :=
  decide ((text.drop k).take pat.length = pat)

/-- Scan positions `a, a+1, …, a+n-1` upward for the first occurrence of
`pat` lying entirely inside `[_, b)`. -/
def findAux (text pat : List Char) (b : Nat) : Nat → Nat → Option Nat
  | _, 0 => none
  | a, n+1 =>
    if a + pat.length ≤ b && occursAt text pat a then some a
    else findAux text pat b (a+1) n

/-- Python `text.find(pat, s, e)`: first index of `pat` inside the slice
`[s, e)` after Python index adjustment, or `-1`. -/
def pyFind (text pat : List Char) (s e : Int) : Int :=
  let a := clampIdx text.length s
  let b := clampIdx text.length e
  match findAux text pat b a (b - a) with
  | some k => (k : Int)
  | none => -1

/-- Scan positions `a+n-1, …, a` downward for the last occurrence of `pat`
lying entirely inside `[_, b)`. -/
def rfindAux (text pat : List Char) (b : Nat) : Nat → Nat → Option Nat
  | _, 0 => none
  | a, n+1 =>
    if a + n + pat.length ≤ b && occursAt text pat (a + n) then some (a + n)
    else rfindAux text pat b a n

/-- Python `text.rfind(pat, s, e)`: last index of `pat` inside the slice
`[s, e)` after Python index adjustment, or `-1`. -/
def pyRFind (text pat : List Char) (s e : Int) : Int :=
  let a := clampIdx text.length s
  let b := clampIdx text.length e
  match rfindAux text pat b a (b - a) with
  | some k => (k : Int)
  | none => -1

/-- Python `text[s:e]` with index adjustment. -/
def pySlice (text : List Char) (s e : Int) : List Char :=
  let a := clampIdx text.length s
  let b := clampIdx text.length e
  (text.take b).drop a

/-! ### DocumentProcessor._split_text (src/core/document_processor.py:519-594) -/

/-- The sentence-terminal patterns of `_split_text` line 558. -/
def sentencePatterns : List (List Char) :=
  [['.', ' '], ['?', ' '], ['!', ' '], ['.', '\n'], ['?', '\n'], ['!', '\n']]

/-- The split-point computation of one `_split_text` loop iteration
(document_processor.py lines 551-575), for a non-final chunk
(`start + chunk_size < len(text)`). -/
def chooseSplitPoint (text : List Char) (chunk_size : Nat) (start : Int) : Int :=
  let naive_end : Int := start + (chunk_size : Int)
  let half : Int := start + ((chunk_size / 2 : Nat) : Int)
  let paragraph_end := pyFind text ['\n', '\n'] half naive_end
  if paragraph_end = -1 then
    let sentence_ends := (sentencePatterns.map (fun p => pyFind text p half naive_end)).filter
      (fun x => decide (x ≠ -1))
    match sentence_ends.max? with
    | some m => m + 1
    | none =>
      let space := pyRFind text [' '] half naive_end
      if space ≠ -1 then space + 1 else naive_end
  else paragraph_end + 2

/-- Result of one iteration of the `_split_text` while-loop. -/
inductive SplitStep where
  | last (chunk : List Char)
  | cont (chunk : Option (List Char)) (nextStart : Int)
deriving DecidableEq, Repr

/-- One iteration of the `_split_text` while-loop body
(document_processor.py lines 541-590), entered with cursor `start`.
`last` is the `end >= len(text)` final-chunk branch; `cont` carries the
(possibly dropped-as-empty) stripped chunk and the next cursor value. -/
def splitStep (text : List Char) (chunk_size chunk_overlap : Nat) (start : Int) : SplitStep :=
  let naive_end : Int := start + (chunk_size : Int)
  if naive_end ≥ (text.length : Int) then SplitStep.last (pySlice text start (text.length : Int))
  else
    let split_point := chooseSplitPoint text chunk_size start
    let chunk := pyStrip (pySlice text start split_point)
    let s1 : Int := split_point - (chunk_overlap : Int)
    let s2 : Int :=
      if s1 < split_point - (chunk_size : Int)
      then split_point - ((min chunk_overlap (chunk_size / 2) : Nat) : Int) else s1
    let s3 : Int := if s2 ≤ split_point - (chunk_size : Int) then split_point else s2
    SplitStep.cont (if chunk = [] then none else some chunk) s3

/-- The `_split_text` while-loop, fuelled (the loop need not terminate:
`none` means the fuel ran out before the loop finished). -/
def splitTextLoop (text : List Char) (chunk_size chunk_overlap : Nat) :
    Nat → Int → List (List Char) → Option (List (List Char))
  | 0, _, _ => none
  | fuel+1, start, chunks =>
    if start < (text.length : Int) then
      match splitStep text chunk_size chunk_overlap start with
      | SplitStep.last chunk => some (chunks ++ [chunk])
      | SplitStep.cont c next =>
        splitTextLoop text chunk_size chunk_overlap fuel next
          (match c with
           | some ch => chunks ++ [ch]
           | none => chunks)
    else some chunks

/-- `DocumentProcessor._split_text` (document_processor.py lines 519-594).
`none` means the while-loop failed to terminate within `len(text) + 1`
iterations (each iteration of the Python loop is supposed to advance the
cursor by at least one position, so a terminating run needs at most
`len(text)` iterations). -/
def split_text (text : List Char) (chunk_size chunk_overlap : Nat) :
    Option (List (List Char)) :=
  if pyStrip text = [] then some []
  else if text.length ≤ chunk_size then some [text]
  else splitTextLoop text chunk_size chunk_overlap (text.length + 1) 0 []

/-! ### Occurrence predicates for the window searches -/

/-- `pat` occurs at `k` entirely inside the window `[a, b)`. -/
def OccIn (text pat : List Char) (a b k : Nat) : Prop :=
  a ≤ k ∧ k + pat.length ≤ b ∧ occursAt text pat k = true

/-- `k` is the earliest occurrence of `pat` inside the window `[a, b)`. -/
def FirstOccIn (text pat : List Char) (a b k : Nat) : Prop :=
  OccIn text pat a b k ∧ ∀ j, OccIn text pat a b j → k ≤ j

/-- Decidable test: some occurrence of `pat` lies entirely inside `[a, b)`. -/
def windowHasOcc (text pat : List Char) (a b : Nat) : Bool :=
  (List.range b).any (fun k => decide (a ≤ k) && decide (k + pat.length ≤ b) && occursAt text pat k)

/-- Modelled from the spec words for C6: the split point is one position
past the punctuation of the LAST occurrence (greatest offset) of ANY
sentence-terminal pattern inside the half-window
`[start + chunk_size/2, start + chunk_size)`. -/
def specLastOccSplit (text : List Char) (chunk_size start : Nat) : Option Nat :=
  ((List.range (start + chunk_size)).filter (fun k =>
      decide (start + chunk_size / 2 ≤ k) &&
      sentencePatterns.any (fun p =>
        decide (k + p.length ≤ start + chunk_size) && occursAt text p k))).max?.map (· + 1)

/-! ### Injectivity of decimal string keys (Python str(n)) -/

/-- Numeric value of a decimal digit character. -/
def decDigitVal (c : Char) : Nat := c.toNat - 48

/-- Decimal value of a digit string. -/
def decodeDigits (l : List Char) : Nat := l.foldl (fun a c => 10 * a + decDigitVal c) 0

/-! ### VectorDB state model (src/core/vector_db.py) -/

/-- A Python value passed as an ID argument: the VectorDB methods accept
ints or strings and coerce with str() before lookup. -/
inductive PyId where
  | int (n : Nat)
  | str (s : String)
deriving DecidableEq, Repr

/-- Python str() applied to an ID value. -/
def pyStr : PyId → String
  | PyId.int n => toString n
  | PyId.str s => s

/-- Python dict lookup (keys unique; first match). -/
def dictFind? {α : Type} : List (String × α) → String → Option α
  | [], _ => none
  | p :: rest, k => if p.1 = k then some p.2 else dictFind? rest k

/-- Python `d[k] = v` on an insertion-ordered dict: overwrite in place if
the key is present, else append at the end. -/
def dictInsert {α : Type} (l : List (String × α)) (k : String) (v : α) : List (String × α) :=
  if (dictFind? l k).isSome then l.map (fun p => if p.1 = k then (k, v) else p)
  else l ++ [(k, v)]

/-- Python `del d[k]`: remove the binding for `k`. -/
def dictErase {α : Type} (l : List (String × α)) (k : String) : List (String × α) :=
  l.filter (fun p => decide (p.1 ≠ k))

/-- A chunk record (vector_db.py lines 205-211); `text` is the stored
preview string. -/
structure ChunkInfo where
  doc_id : String
  index : Nat
  vector_index : Nat
  text : String
  created_at : String
deriving DecidableEq, Repr

/-- A document record (vector_db.py lines 188-193 and 215). `chunk_ids`
is `none` until line 215 attaches the key, so an add_document aborted by
the FAISS dimension assert leaves a record without it. -/
structure DocInfo where
  title : String
  file_path : String
  chunk_count : Nat
  created_at : String
  chunk_ids : Option (List String)
deriving DecidableEq, Repr

/-- In-memory state of class VectorDB: the JSON metadata (documents dict,
chunks dict, next_doc_id, next_chunk_id) and the FAISS IndexFlatL2,
modelled as the list of stored vectors in insertion order (exact
rationals stand in for float32; `dimension` is `self.index.d`). -/
structure VectorDB where
  documents : List (String × DocInfo)
  chunks : List (String × ChunkInfo)
  next_doc_id : Nat
  next_chunk_id : Nat
  index : List (List ℚ)
  dimension : Nat
deriving DecidableEq, Repr

/-- A freshly initialized store (`_init_db` with no pre-existing files):
`_create_new_metadata` + `_create_new_index`. -/
def VectorDB.init (dimension : Nat) : VectorDB :=
  { documents := [], chunks := [], next_doc_id := 1, next_chunk_id := 1,
    index := [], dimension := dimension }

/-- vector_db.py line 209: only a 200-character preview of the chunk text
is stored in the chunk record. -/
def previewText (t : String) : String :=
  String.mk (t.toList.take 200) ++ (if 200 < t.length then "..." else "")

/-- The chunk-registration loop of add_document (vector_db.py lines
199-212): over the chunk texts (with running chunk index `i` and ID
counter `nextId`) it returns the chunk_ids list, the final next_chunk_id
and the updated chunks dict. `base` is `index.ntotal - len(chunks)` after
the FAISS add, i.e. the pre-insertion vector count. -/
def addChunkLoop (doc_id now : String) (base : Nat) :
    List String → Nat → Nat → List (String × ChunkInfo) →
    List String × Nat × List (String × ChunkInfo)
  | [], _, nextId, cmap => ([], nextId, cmap)
  | t :: rest, i, nextId, cmap =>
    let cid := toString nextId
    let cmap1 := dictInsert cmap cid
      { doc_id := doc_id, index := i, vector_index := base + i,
        text := previewText t, created_at := now }
    let r := addChunkLoop doc_id now base rest (i + 1) (nextId + 1) cmap1
    (cid :: r.1, r.2.1, r.2.2)

/-- VectorDB.add_document (vector_db.py lines 155-226). Errors carry the
in-memory state at the moment the exception escaped (Python performs no
rollback): the two explicit ValueErrors are raised before any mutation;
the FAISS `index.add` assert (embedding matrix width must equal the index
dimension) fires AFTER next_doc_id was incremented and the document
record (without chunk_ids) was inserted, and is re-raised by line 226. -/
def add_document (s : VectorDB) (title file_path : String) (chunks : List String)
    (embeddings : List (List ℚ)) (now : String) :
    Except (String × VectorDB) (Nat × VectorDB) :=
  if chunks.length = 0 ∨ embeddings.length = 0 then
    Except.error ("empty chunks or embeddings", s)
  else if chunks.length ≠ embeddings.length then
    Except.error ("chunk/embedding count mismatch", s)
  else
    let doc_id := toString s.next_doc_id
    let s1 : VectorDB := { s with
      next_doc_id := s.next_doc_id + 1,
      documents := dictInsert s.documents doc_id
        { title := title, file_path := file_path, chunk_count := chunks.length,
          created_at := now, chunk_ids := none } }
    if embeddings.all (fun e => decide (e.length = s.dimension)) then
      let s2 : VectorDB := { s1 with index := s1.index ++ embeddings }
      let r := addChunkLoop doc_id now (s2.index.length - chunks.length)
        chunks 0 s2.next_chunk_id s2.chunks
      let s3 : VectorDB := { s2 with
        next_chunk_id := r.2.1,
        chunks := r.2.2,
        documents := dictInsert s2.documents doc_id
          { title := title, file_path := file_path, chunk_count := chunks.length,
            created_at := now, chunk_ids := some r.1 } }
      Except.ok (s.next_doc_id, s3)
    else
      Except.error ("assert d == self.d", s1)

/-- Closed form of the chunk records produced by addChunkLoop: one record
per chunk text, with consecutive IDs from `nid`, consecutive chunk
indices from `i` and consecutive vector positions from `base + i`. -/
def chunkEntries (doc_id now : String) (base : Nat) :
    List String → Nat → Nat → List (String × ChunkInfo)
  | [], _, _ => []
  | t :: rest, i, nid =>
    (toString nid,
      { doc_id := doc_id, index := i, vector_index := base + i,
        text := previewText t, created_at := now }) ::
      chunkEntries doc_id now base rest (i + 1) (nid + 1)

/-- The chunk-deletion loop of delete_document (vector_db.py lines
366-374): collects vector_index of each of the document's chunk ids
present in the chunks dict, deleting those records as it goes. -/
def delChunks : List String → List (String × ChunkInfo) →
    List Nat × List (String × ChunkInfo)
  | [], cmap => ([], cmap)
  | cid :: rest, cmap =>
    match dictFind? cmap cid with
    | some info =>
      let r := delChunks rest (dictErase cmap cid)
      (info.vector_index :: r.1, r.2)
    | none => delChunks rest cmap

/-- VectorDB.delete_document (vector_db.py lines 345-424): coerce the ID,
return False if absent; else delete the chunk records, rebuild the index
from the vectors at the surviving positions (in ascending original
order), remap surviving chunks' vector_index through the old-to-new map,
delete the document record and return True. -/
def delete_document (s : VectorDB) (arg : PyId) : Bool × VectorDB :=
  let doc_id := pyStr arg
  match dictFind? s.documents doc_id with
  | none => (false, s)
  | some doc =>
    let chunk_ids := doc.chunk_ids.getD []
    let r := delChunks chunk_ids s.chunks
    let vector_indices := r.1
    let chunks1 := r.2
    if vector_indices ≠ [] then
      let total := s.index.length
      let keep_indices := (List.range total).filter (fun i => decide (i ∉ vector_indices))
      if keep_indices ≠ [] then
        let keep_vectors := keep_indices.map (fun i => s.index.getD i [])
        let chunks2 := chunks1.map (fun p =>
          if p.2.vector_index ∈ keep_indices then
            (p.1, { p.2 with vector_index := keep_indices.indexOf p.2.vector_index })
          else p)
        (true, { s with documents := dictErase s.documents doc_id,
                        chunks := chunks2, index := keep_vectors })
      else
        (true, { s with documents := dictErase s.documents doc_id,
                        chunks := chunks1, index := [] })
    else
      (true, { s with documents := dictErase s.documents doc_id,
                      chunks := chunks1, index := s.index })

/-- VectorDB.get_document_by_id (vector_db.py lines 293-304). -/
def get_document_by_id (s : VectorDB) (arg : PyId) : Option DocInfo :=
  dictFind? s.documents (pyStr arg)

/-- VectorDB.get_chunk_by_id (vector_db.py lines 306-317). -/
def get_chunk_by_id (s : VectorDB) (arg : PyId) : Option ChunkInfo :=
  dictFind? s.chunks (pyStr arg)

/-- The numeric fields of VectorDB.get_stats (vector_db.py lines 426-447). -/
structure Stats where
  document_count : Nat
  chunk_count : Nat
  vector_count : Nat
  dimension : Nat
deriving DecidableEq, Repr

/-- VectorDB.get_stats. -/
def get_stats (s : VectorDB) : Stats :=
  { document_count := s.documents.length, chunk_count := s.chunks.length,
    vector_count := s.index.length, dimension := s.dimension }

/-- Squared L2 distance, as computed by FAISS IndexFlatL2. -/
def sqDist (u v : List ℚ) : ℚ := (List.zipWith (fun a b => (a - b) * (a - b)) u v).sum

/-- Modelled from FAISS IndexFlatL2.search: exhaustive exact k-NN, the
first `k` of all (position, squared-distance) pairs sorted by ascending
distance (stable sort, so ties keep scan order). FAISS pads with
position -1 when fewer than `k` vectors exist and the caller skips
those, so the model simply returns a shorter list. -/
def knnSearch (index : List (List ℚ)) (q : List ℚ) (k : Nat) : List (Nat × ℚ) :=
  (List.insertionSort (fun x y : Nat × ℚ => x.2 ≤ y.2)
    (index.enum.map (fun p => (p.1, sqDist q p.2)))).take k

/-- One entry of the result list of VectorDB.search (lines 276-284). -/
structure SearchResult where
  chunk_id : String
  doc_id : String
  doc_title : String
  chunk_index : Nat
  similarity : ℚ
  distance : ℚ
  text_preview : String
deriving DecidableEq, Repr

/-- The result-resolution loop of VectorDB.search (lines 252-284): for
each returned position, linearly scan the chunks dict for the first
record with that vector_index (skipping positions with no match, lines
267-269); a missing owning document raises KeyError (line 273), which the
except clause re-raises. -/
def resolveResults (s : VectorDB) : List (Nat × ℚ) → Except String (List SearchResult)
  | [] => Except.ok []
  | pr :: rest =>
    match s.chunks.find? (fun c => decide (c.2.vector_index = pr.1)) with
    | none => resolveResults s rest
    | some c =>
      match dictFind? s.documents c.2.doc_id with
      | none => Except.error "KeyError: doc_id"
      | some doc =>
        match resolveResults s rest with
        | Except.error e => Except.error e
        | Except.ok res =>
          let entry : SearchResult :=
            { chunk_id := c.1, doc_id := c.2.doc_id,
              doc_title := doc.title, chunk_index := c.2.index,
              similarity := 1 / (1 + pr.2), distance := pr.2,
              text_preview := c.2.text }
          Except.ok (entry :: res)

/-- VectorDB.search (vector_db.py lines 228-291). -/
def search (s : VectorDB) (query : List ℚ) (top_k : Nat) :
    Except String (List SearchResult) :=
  if s.index.length = 0 then Except.ok []
  else resolveResults s (knnSearch s.index query top_k)

/-! ### Persistence (claims C8) -/

/-- One disk write; `fails` says whether the underlying storage raises. -/
def diskWrite (fails : Bool) : Except String Unit :=
  if fails then Except.error "OSError" else Except.ok ()

/-- VectorDB._save_metadata (lines 119-136): the whole body sits in a
try/except whose handler only logs, so a storage exception is swallowed
and the method returns normally. -/
def save_metadata (fails : Bool) : Except String Unit :=
  match diskWrite fails with
  | Except.ok _ => Except.ok ()
  | Except.error _ => Except.ok ()

/-- VectorDB._save_index (lines 138-153): same swallowing handler. -/
def save_index (fails : Bool) : Except String Unit :=
  match diskWrite fails with
  | Except.ok _ => Except.ok ()
  | Except.error _ => Except.ok ()

/-- add_document including its persistence calls (lines 217-219),
parameterized by whether the metadata/index disk writes raise. Were a
save to raise, the surrounding try/except (line 224-226) would re-raise
the exception to the caller. -/
def add_document_persist (metaFails indexFails : Bool) (s : VectorDB)
    (title file_path : String) (chunks : List String) (embeddings : List (List ℚ))
    (now : String) : Except (String × VectorDB) (Nat × VectorDB) :=
  match add_document s title file_path chunks embeddings now with
  | Except.error e => Except.error e
  | Except.ok (docId, s3) =>
    match save_metadata metaFails with
    | Except.error e => Except.error (e, s3)
    | Except.ok _ =>
      match save_index indexFails with
      | Except.error e => Except.error (e, s3)
      | Except.ok _ => Except.ok (docId, s3)

/-- delete_document including its persistence calls (lines 416-417),
parameterized like add_document_persist; a raising save would be
re-raised by lines 422-424. -/
def delete_document_persist (metaFails indexFails : Bool) (s : VectorDB) (arg : PyId) :
    Except String (Bool × VectorDB) :=
  let r := delete_document s arg
  if r.1 = false then Except.ok r
  else
    match save_metadata metaFails with
    | Except.error e => Except.error e
    | Except.ok _ =>
      match save_index indexFails with
      | Except.error e => Except.error e
      | Except.ok _ => Except.ok r

/-! ### DocumentProcessor.query_similar (claim C9) -/

/-- The attribute names defined on class VectorDB in src/core/vector_db.py
(methods of the class; relevant to attribute lookup on an instance). -/
def vectorDBAttrs : List String :=
  ["__init__", "_init_db", "_create_new_metadata", "_create_new_index",
   "_save_metadata", "_save_index", "add_document", "search",
   "get_document_by_id", "get_chunk_by_id", "get_all_documents",
   "get_all_chunks", "delete_document", "get_stats", "save_index"]

/-- DocumentProcessor.query_similar (document_processor.py lines 278-309):
empty/whitespace-only queries return []; otherwise the code evaluates
`self.vector_db.search_vectors`, an attribute VectorDB does not define,
so an AttributeError is raised (and re-raised by lines 307-309). The
(unreachable) success branch would return the delegated result. -/
def query_similar (s : VectorDB) (query : String) (queryEmbedding : List ℚ)
    (top_k : Nat) : Except String (List SearchResult) :=
  if pyStrip query.toList = [] then Except.ok []
  else if "search_vectors" ∈ vectorDBAttrs then
    search s queryEmbedding top_k
  else Except.error "AttributeError: VectorDB object has no attribute search_vectors"

/-! ### Well-formedness invariant of a VectorDB state -/

/-- The invariant claimed by C4: the index holds exactly one vector per
live chunk, and the chunks' vector_index values are pairwise distinct and
in range `[0, vector_count)`. -/
def CoreInv (s : VectorDB) : Prop :=
  s.chunks.length = s.index.length ∧
  (s.chunks.map (fun p => p.2.vector_index)).Nodup ∧
  ∀ p ∈ s.chunks, p.2.vector_index < s.index.length

/-- Well-formedness of a VectorDB state: dict keys are unique, documents
and chunks are linked consistently, the decimal value of every stored key
lies below the corresponding ID counter (so future IDs are fresh), and
CoreInv holds. All states reachable by the VectorDB operations from a
fresh store satisfy this; every conjunct is decidable. -/
def Wf (s : VectorDB) : Prop :=
  (s.documents.map Prod.fst).Nodup ∧
  (s.chunks.map Prod.fst).Nodup ∧
  CoreInv s ∧
  (∀ k ∈ s.documents.map Prod.fst, decodeDigits k.toList < s.next_doc_id) ∧
  (∀ k ∈ s.chunks.map Prod.fst, decodeDigits k.toList < s.next_chunk_id) ∧
  (∀ p ∈ s.documents, (p : String × DocInfo).2.chunk_ids ≠ none ∧
    ((p : String × DocInfo).2.chunk_ids.getD []).Nodup ∧
    p.2.chunk_count = (p.2.chunk_ids.getD []).length ∧
    ∀ cid ∈ p.2.chunk_ids.getD [], cid ∈ s.chunks.map Prod.fst)

instance decCoreInv (s : VectorDB) : Decidable (CoreInv s) := by
  unfold CoreInv
  infer_instance

instance decWf (s : VectorDB) : Decidable (Wf s) := by
  unfold Wf
  infer_instance

/-- A small concrete well-formed store: one document ("0") with two
chunks ("0", "1") and two stored 2-dimensional vectors. -/
def sampleStore : VectorDB :=
  VectorDB.mk
    [("0", DocInfo.mk "t" "p" 2 "ts" (some ["0", "1"]))]
    [("0", ChunkInfo.mk "0" 0 0 "x" "ts"), ("1", ChunkInfo.mk "0" 1 1 "y" "ts")]
    1 2
    [[1, 0], [0, 1]]
    2

theorem decDigitVal_digitChar (m : Nat) (h : m < 10) :
    decDigitVal (Nat.digitChar m) = m := by
  interval_cases m <;> rfl

theorem toDigitsCore_append (f : Nat) :
    ∀ n ds, Nat.toDigitsCore 10 f n ds = Nat.toDigitsCore 10 f n [] ++ ds := by
  induction f with
  | zero => intro n ds; simp [Nat.toDigitsCore]
  | succ f ih =>
    intro n ds
    simp only [Nat.toDigitsCore]
    by_cases h : n / 10 = 0
    · simp [h]
    · rw [if_neg h, if_neg h, ih (n / 10) [Nat.digitChar (n % 10)],
        ih (n / 10) (Nat.digitChar (n % 10) :: ds), List.append_assoc]
      rfl

theorem decodeDigits_append_singleton (l : List Char) (c : Char) :
    decodeDigits (l ++ [c]) = 10 * decodeDigits l + decDigitVal c := by
  simp [decodeDigits, List.foldl_append]

theorem decode_toDigitsCore : ∀ f n, n < f →
    decodeDigits (Nat.toDigitsCore 10 f n []) = n := by
  intro f
  induction f with
  | zero => intro n h; omega
  | succ f ih =>
    intro n h
    simp only [Nat.toDigitsCore]
    by_cases h0 : n / 10 = 0
    · have hn : n < 10 := by omega
      rw [if_pos h0]
      have hd : decodeDigits [Nat.digitChar (n % 10)] = decDigitVal (Nat.digitChar (n % 10)) := by
        simp [decodeDigits]
      rw [hd, decDigitVal_digitChar (n % 10) (Nat.mod_lt n (by omega)), Nat.mod_eq_of_lt hn]
    · have hn1 : 0 < n := by
        rcases Nat.eq_zero_or_pos n with rfl | h1
        · simp at h0
        · exact h1
      have hdiv : n / 10 < f := by
        have := Nat.div_lt_self hn1 (by omega : 1 < 10)
        omega
      rw [if_neg h0, toDigitsCore_append, decodeDigits_append_singleton, ih (n / 10) hdiv,
        decDigitVal_digitChar (n % 10) (Nat.mod_lt n (by omega))]
      omega

theorem decode_toString (n : Nat) : decodeDigits (toString n).toList = n := by
  have : (toString n).toList = Nat.toDigitsCore 10 (n + 1) n [] := rfl
  rw [this]
  exact decode_toDigitsCore (n + 1) n (Nat.lt_succ_self n)

/-- Python str() on naturals (decimal) is injective: distinct IDs get
distinct dictionary keys. -/
theorem natKey_injective : Function.Injective (fun n : Nat => toString n) := by
  intro m n h
  have h2 : decodeDigits (toString m).toList = decodeDigits (toString n).toList := by
    simp only at h
    rw [h]
  rwa [decode_toString, decode_toString] at h2

theorem natKey_ne (m n : Nat) (h : m ≠ n) : toString m ≠ toString n :=
  fun hc => h (natKey_injective hc)

/-! ### Occurrence characterization of pyFind -/

theorem windowHasOcc_iff (text pat : List Char) (a b : Nat) (hp : pat ≠ []) :
    windowHasOcc text pat a b = true ↔ ∃ k, OccIn text pat a b k := by
  unfold windowHasOcc OccIn
  simp only [List.any_eq_true, List.mem_range, Bool.and_eq_true, decide_eq_true_eq]
  constructor
  · rintro ⟨k, _, ⟨h1, h2⟩, h3⟩
    exact ⟨k, h1, h2, h3⟩
  · rintro ⟨k, h1, h2, h3⟩
    have hplen : 0 < pat.length := List.length_pos.2 hp
    exact ⟨k, by omega, ⟨h1, h2⟩, h3⟩

theorem findAux_some_spec (text pat : List Char) (b : Nat) :
    ∀ n a k, findAux text pat b a n = some k →
      a ≤ k ∧ k < a + n ∧ k + pat.length ≤ b ∧ occursAt text pat k = true ∧
      ∀ j, a ≤ j → j < k → ¬(j + pat.length ≤ b ∧ occursAt text pat j = true) := by
  intro n
  induction n with
  | zero => intro a k h; simp [findAux] at h
  | succ n ih =>
    intro a k h
    rw [findAux] at h
    by_cases hc : (decide (a + pat.length ≤ b) && occursAt text pat a) = true
    · rw [if_pos hc] at h
      cases h
      simp only [Bool.and_eq_true, decide_eq_true_eq] at hc
      exact ⟨Nat.le_refl _, by omega, hc.1, hc.2, fun j h1 h2 => by omega⟩
    · rw [if_neg hc] at h
      obtain ⟨h1, h2, h3, h4, h5⟩ := ih (a+1) k h
      refine ⟨by omega, by omega, h3, h4, ?_⟩
      intro j hj1 hj2 ⟨hj3, hj4⟩
      rcases Nat.eq_or_lt_of_le hj1 with rfl | hlt
      · exact hc (by simp [hj3, hj4])
      · exact h5 j hlt hj2 ⟨hj3, hj4⟩

theorem findAux_none_spec (text pat : List Char) (b : Nat) :
    ∀ n a, findAux text pat b a n = none →
      ∀ k, a ≤ k → k < a + n → ¬(k + pat.length ≤ b ∧ occursAt text pat k = true) := by
  intro n
  induction n with
  | zero => intro a _ k _ _; omega
  | succ n ih =>
    intro a h k hk1 hk2 ⟨hk3, hk4⟩
    rw [findAux] at h
    by_cases hc : (decide (a + pat.length ≤ b) && occursAt text pat a) = true
    · rw [if_pos hc] at h; cases h
    · rw [if_neg hc] at h
      rcases Nat.eq_or_lt_of_le hk1 with rfl | hlt
      · exact hc (by simp [hk3, hk4])
      · exact ih (a+1) h k hlt (by omega) ⟨hk3, hk4⟩

theorem clampIdx_coe (len m : Nat) (h : m ≤ len) : clampIdx len (m : Int) = m := by
  unfold clampIdx
  have h0 : ¬ ((m : Int) < 0) := by omega
  simp only [h0, if_neg, if_false, Int.toNat_natCast]
  omega

/-- Characterization of Python `find` on an in-range window `[a, b)`:
either it returns `-1` and there is no occurrence in the window, or it
returns the earliest occurrence in the window. -/
theorem pyFind_nat (text pat : List Char) (a b : Nat) (hp : pat ≠ [])
    (ha : a ≤ text.length) (hb : b ≤ text.length) :
    (pyFind text pat (a : Int) (b : Int) = -1 ∧ ∀ k, ¬ OccIn text pat a b k) ∨
    (∃ k : Nat, pyFind text pat (a : Int) (b : Int) = (k : Int) ∧ FirstOccIn text pat a b k) := by
  have key : pyFind text pat (a : Int) (b : Int) =
      (match findAux text pat b a (b - a) with
       | some k => (k : Int)
       | none => -1) := by
    simp only [pyFind, clampIdx_coe _ _ ha, clampIdx_coe _ _ hb]
  have hplen : 0 < pat.length := List.length_pos.2 hp
  cases hfind : findAux text pat b a (b - a) with
  | none =>
    left
    rw [key, hfind]
    refine ⟨rfl, ?_⟩
    rintro k ⟨h1, h2, h3⟩
    exact findAux_none_spec text pat b (b - a) a hfind k h1 (by omega) ⟨h2, h3⟩
  | some k =>
    right
    rw [key, hfind]
    obtain ⟨h1, h2, h3, h4, h5⟩ := findAux_some_spec text pat b (b - a) a k hfind
    refine ⟨k, rfl, ⟨h1, h3, h4⟩, ?_⟩
    rintro j ⟨hj1, hj2, hj3⟩
    by_contra hlt
    exact h5 j hj1 (by omega) ⟨hj2, hj3⟩

/-! ### Claim C6: sentence-boundary selection -/

/-- C6 counterexample: in `"abcde. x. fghij"` with `chunk_size = 10`,
`start = 0`, the half-window `[5, 10)` has no paragraph break and contains
two occurrences of `". "` (at 5 and 8). The last occurrence is at 8, so
the claimed split point is 9, but the code (taking `str.find`, the FIRST
occurrence of each pattern) chooses 6. -/
theorem C6_counterexample :
    windowHasOcc ("abcde. x. fghij".toList) ['\n', '\n'] 5 10 = false ∧
    occursAt ("abcde. x. fghij".toList) ['.', ' '] 5 = true ∧
    occursAt ("abcde. x. fghij".toList) ['.', ' '] 8 = true ∧
    specLastOccSplit ("abcde. x. fghij".toList) 10 0 = some 9 ∧
    chooseSplitPoint ("abcde. x. fghij".toList) 10 0 = 6 ∧
    chooseSplitPoint ("abcde. x. fghij".toList) 10 0 ≠ 9 := by
  decide

/-- C6 amended: when the half-window contains no paragraph break but at
least one sentence-terminal pattern, the chosen split point is `k + 1`
where `k` is the greatest offset among the FIRST occurrence of each
pattern (not the last occurrence overall). -/
theorem C6_sentence_split (text : List Char) (chunk_size start : Nat)
    (hlen : start + chunk_size ≤ text.length)
    (hpara : windowHasOcc text ['\n', '\n'] (start + chunk_size / 2)
      (start + chunk_size) = false)
    (hsent : ∃ p ∈ sentencePatterns,
      windowHasOcc text p (start + chunk_size / 2) (start + chunk_size) = true) :
    ∃ k : Nat, chooseSplitPoint text chunk_size (start : Int) = (k : Int) + 1 ∧
      (∃ p ∈ sentencePatterns,
        FirstOccIn text p (start + chunk_size / 2) (start + chunk_size) k) ∧
      (∀ p ∈ sentencePatterns, ∀ j,
        FirstOccIn text p (start + chunk_size / 2) (start + chunk_size) j → j ≤ k) := by
  have hpats : ∀ p ∈ sentencePatterns, p ≠ ([] : List Char) := by decide
  have ha : start + chunk_size / 2 ≤ text.length := by
    have := Nat.div_le_self chunk_size 2; omega
  have hb : start + chunk_size ≤ text.length := hlen
  have hcast1 : (start : Int) + ((chunk_size / 2 : Nat) : Int) =
      ((start + chunk_size / 2 : Nat) : Int) := by push_cast; ring
  have hcast2 : (start : Int) + ((chunk_size : Nat) : Int) =
      ((start + chunk_size : Nat) : Int) := by push_cast; ring
  -- the paragraph search comes up empty
  have hpara_eq : pyFind text ['\n', '\n'] ((start + chunk_size / 2 : Nat) : Int)
      ((start + chunk_size : Nat) : Int) = -1 := by
    rcases pyFind_nat text ['\n', '\n'] _ _ (by simp) ha hb with ⟨h, _⟩ | ⟨k, _, hocc, _⟩
    · exact h
    · rw [(windowHasOcc_iff text ['\n', '\n'] _ _ (by simp)).2 ⟨k, hocc⟩] at hpara
      cases hpara
  -- abbreviate the per-pattern first-occurrence list
  have hends : ∀ x ∈ (sentencePatterns.map (fun p =>
        pyFind text p ((start + chunk_size / 2 : Nat) : Int)
          ((start + chunk_size : Nat) : Int))).filter (fun x => decide (x ≠ -1)),
      ∃ p ∈ sentencePatterns, ∃ k : Nat, x = (k : Int) ∧
        FirstOccIn text p (start + chunk_size / 2) (start + chunk_size) k := by
    intro x hx
    rw [List.mem_filter] at hx
    obtain ⟨hx1, hx2⟩ := hx
    rw [List.mem_map] at hx1
    obtain ⟨p, hp, rfl⟩ := hx1
    rcases pyFind_nat text p _ _ (hpats p hp) ha hb with ⟨h, _⟩ | ⟨k, hk, hfirst⟩
    · rw [h] at hx2; simp at hx2
    · exact ⟨p, hp, k, hk, hfirst⟩
  have hmem : ∀ p ∈ sentencePatterns, ∀ j,
      FirstOccIn text p (start + chunk_size / 2) (start + chunk_size) j →
      ((j : Int) ∈ (sentencePatterns.map (fun p =>
        pyFind text p ((start + chunk_size / 2 : Nat) : Int)
          ((start + chunk_size : Nat) : Int))).filter (fun x => decide (x ≠ -1))) := by
    intro p hp j hj
    rcases pyFind_nat text p _ _ (hpats p hp) ha hb with ⟨_, hnone⟩ | ⟨k, hk, hfirst⟩
    · exact absurd hj.1 (hnone j)
    · have : j = k := Nat.le_antisymm (hj.2 k hfirst.1) (hfirst.2 j hj.1)
      subst this
      rw [List.mem_filter]
      exact ⟨List.mem_map.2 ⟨p, hp, hk⟩, by simp⟩
  -- the filtered list is nonempty, so max? is some m
  obtain ⟨p0, hp0, hw0⟩ := hsent
  obtain ⟨k0, hocc0⟩ := (windowHasOcc_iff text p0 _ _ (hpats p0 hp0)).1 hw0
  have hex0 : ∃ j, FirstOccIn text p0 (start + chunk_size / 2) (start + chunk_size) j := by
    rcases pyFind_nat text p0 _ _ (hpats p0 hp0) ha hb with ⟨_, hnone⟩ | ⟨k, _, hfirst⟩
    · exact absurd hocc0 (hnone k0)
    · exact ⟨k, hfirst⟩
  obtain ⟨j0, hj0⟩ := hex0
  have hne : (sentencePatterns.map (fun p =>
      pyFind text p ((start + chunk_size / 2 : Nat) : Int)
        ((start + chunk_size : Nat) : Int))).filter (fun x => decide (x ≠ -1)) ≠ [] := by
    intro hnil
    have := hmem p0 hp0 j0 hj0
    rw [hnil] at this
    cases this
  obtain ⟨m, hm⟩ : ∃ m, ((sentencePatterns.map (fun p =>
      pyFind text p ((start + chunk_size / 2 : Nat) : Int)
        ((start + chunk_size : Nat) : Int))).filter (fun x => decide (x ≠ -1))).max? = some m := by
    cases hmx : ((sentencePatterns.map (fun p =>
        pyFind text p ((start + chunk_size / 2 : Nat) : Int)
          ((start + chunk_size : Nat) : Int))).filter (fun x => decide (x ≠ -1))).max? with
    | none => exact absurd (List.max?_eq_none_iff.1 hmx) hne
    | some m => exact ⟨m, rfl⟩
  have hm_mem := List.max?_mem (fun a b => max_choice a b) hm
  have hm_ub := (List.max?_le_iff (fun a b c => max_le_iff) hm).1 (le_refl m)
  obtain ⟨p1, hp1, k1, hk1, hfirst1⟩ := hends m hm_mem
  refine ⟨k1, ?_, ⟨p1, hp1, hfirst1⟩, ?_⟩
  · -- reduce chooseSplitPoint
    simp only [chooseSplitPoint, hcast1, hcast2, hpara_eq, if_pos, hm, hk1]
  · intro p hp j hj
    have := hm_ub ((j : Int)) (hmem p hp j hj)
    rw [hk1] at this
    exact_mod_cast this

/-- Witness for C6_sentence_split at a concrete input (the half-window
`[5, 10)` of `"abcde, x. fghij"` holds one `". "` occurrence at 8). -/
theorem C6_sentence_split_witness :
    (0 + 10 ≤ ("abcde, x. fghij".toList).length ∧
     windowHasOcc ("abcde, x. fghij".toList) ['\n', '\n'] (0 + 10 / 2) (0 + 10) = false ∧
     ∃ p ∈ sentencePatterns, windowHasOcc ("abcde, x. fghij".toList) p (0 + 10 / 2) (0 + 10) = true) ∧
    (∃ k : Nat, chooseSplitPoint ("abcde, x. fghij".toList) 10 ((0 : Nat) : Int) = (k : Int) + 1 ∧
      (∃ p ∈ sentencePatterns,
        FirstOccIn ("abcde, x. fghij".toList) p (0 + 10 / 2) (0 + 10) k) ∧
      (∀ p ∈ sentencePatterns, ∀ j,
        FirstOccIn ("abcde, x. fghij".toList) p (0 + 10 / 2) (0 + 10) j → j ≤ k)) :=
  ⟨⟨by decide, by decide, ⟨['.', ' '], by decide, by decide⟩⟩,
   C6_sentence_split ("abcde, x. fghij".toList) 10 0 (by decide) (by decide)
     ⟨['.', ' '], by decide, by decide⟩⟩

/-! ### Claim C7: the trivial case of split_text -/

/-- C7 counterexample: for `text = "  a  "` (length 5 ≤ chunk_size 1000,
not whitespace-only) the code returns the single chunk UNTRIMMED, not the
trimmed text the claim asserts. -/
theorem C7_counterexample :
    split_text ("  a  ".toList) 1000 200 = some [("  a  ".toList)] ∧
    split_text ("  a  ".toList) 1000 200 ≠ some [pyStrip ("  a  ".toList)] := by
  decide

/-- C7 amended: for text of length at most chunk_size, `_split_text`
returns the empty sequence when the text is empty or whitespace-only, and
otherwise a single-element sequence containing the input text AS IS
(untrimmed). -/
theorem C7_trivial_case (text : List Char) (chunk_size chunk_overlap : Nat)
    (h : text.length ≤ chunk_size) :
    split_text text chunk_size chunk_overlap =
      if pyStrip text = [] then some [] else some [text] := by
  unfold split_text
  by_cases hs : pyStrip text = [] <;> simp [hs, h]

/-- Witness for C7_trivial_case at a concrete input. -/
theorem C7_trivial_case_witness :
    ("  a  ".toList).length ≤ 1000 ∧
    split_text ("  a  ".toList) 1000 200 =
      (if pyStrip ("  a  ".toList) = [] then some [] else some [("  a  ".toList)]) :=
  ⟨by decide, C7_trivial_case ("  a  ".toList) 1000 200 (by decide)⟩

/-! ### Claim C2: strict cursor increase / termination of the chunk loop -/

/-- C2: the guarantee fails. With `chunk_size = 10`, `chunk_overlap = 8`
(valid: `0 ≤ 8 < 10`) and `text = "aaaaa. aaaaaaa"`, the first loop
iteration moves the cursor from `0` to `-2` (it decreases), the iteration
at cursor `-2` produces cursor `-2` again, and consequently the while-loop
never terminates: the fuelled loop returns `none` for every fuel. -/
theorem C2_cursor_not_increasing :
    splitStep ("aaaaa. aaaaaaa".toList) 10 8 0 =
      SplitStep.cont (some ("aaaaa.".toList)) (-2) ∧
    splitStep ("aaaaa. aaaaaaa".toList) 10 8 (-2) = SplitStep.cont none (-2) ∧
    (∀ fuel acc, splitTextLoop ("aaaaa. aaaaaaa".toList) 10 8 fuel (-2) acc = none) ∧
    split_text ("aaaaa. aaaaaaa".toList) 10 8 = none := by
  refine ⟨by decide, by decide, ?_, by decide⟩
  intro fuel
  induction fuel with
  | zero => intro acc; rfl
  | succ n ih =>
    intro acc
    have hstep : splitStep ("aaaaa. aaaaaaa".toList) 10 8 (-2) = SplitStep.cont none (-2) := by
      decide
    rw [splitTextLoop, hstep]
    simpa using ih acc

/-! ### Dictionary lemmas -/

theorem dictFind?_eq_none {α : Type} (l : List (String × α)) (k : String) :
    dictFind? l k = none ↔ k ∉ l.map Prod.fst := by
  induction l with
  | nil => simp [dictFind?]
  | cons p rest ih =>
    by_cases h : p.1 = k
    · simp [dictFind?, h]
    · rw [dictFind?, if_neg h, ih, List.map_cons]
      simp only [List.mem_cons]
      constructor
      · intro hn hc
        rcases hc with hc | hc
        · exact h hc.symm
        · exact hn hc
      · intro hn hc
        exact hn (Or.inr hc)

theorem dictFind?_mem {α : Type} (l : List (String × α)) (k : String) (v : α)
    (h : dictFind? l k = some v) : (k, v) ∈ l := by
  induction l with
  | nil => simp [dictFind?] at h
  | cons p rest ih =>
    by_cases hp : p.1 = k
    · rw [dictFind?, if_pos hp] at h
      cases h
      obtain ⟨a, b⟩ := p
      cases hp
      exact List.mem_cons_self _ _
    · rw [dictFind?, if_neg hp] at h
      exact List.mem_cons_of_mem _ (ih h)

theorem mem_dictFind? {α : Type} (l : List (String × α)) (k : String) (v : α)
    (hnd : (l.map Prod.fst).Nodup) (h : (k, v) ∈ l) : dictFind? l k = some v := by
  induction l with
  | nil => simp at h
  | cons p rest ih =>
    rw [List.map_cons, List.nodup_cons] at hnd
    rcases List.mem_cons.1 h with rfl | hmem
    · rw [dictFind?, if_pos rfl]
    · have hne : p.1 ≠ k := by
        intro hc
        exact hnd.1 (hc ▸ (List.mem_map.2 ⟨(k, v), hmem, rfl⟩))
      rw [dictFind?, if_neg hne]
      exact ih hnd.2 hmem

theorem dictInsert_of_fresh {α : Type} (l : List (String × α)) (k : String) (v : α)
    (h : dictFind? l k = none) : dictInsert l k v = l ++ [(k, v)] := by
  unfold dictInsert
  rw [h]
  rfl

theorem dictFind?_overwrite_self {α : Type} (l : List (String × α)) (k : String) (v : α)
    (hs : (dictFind? l k).isSome) :
    dictFind? (l.map (fun p => if p.1 = k then (k, v) else p)) k = some v := by
  induction l with
  | nil => simp [dictFind?] at hs
  | cons p rest ih =>
    by_cases hp : p.1 = k
    · rw [List.map_cons, if_pos hp, dictFind?, if_pos rfl]
    · rw [List.map_cons, if_neg hp, dictFind?, if_neg hp]
      rw [dictFind?, if_neg hp] at hs
      exact ih hs

theorem dictFind?_append_singleton_self {α : Type} (l : List (String × α)) (k : String) (v : α)
    (hn : dictFind? l k = none) : dictFind? (l ++ [(k, v)]) k = some v := by
  induction l with
  | nil => simp [dictFind?]
  | cons p rest ih =>
    rw [List.cons_append, dictFind?]
    by_cases hq : p.1 = k
    · rw [dictFind?, if_pos hq] at hn
      cases hn
    · rw [if_neg hq]
      rw [dictFind?, if_neg hq] at hn
      exact ih hn

theorem dictFind?_insert_self {α : Type} (l : List (String × α)) (k : String) (v : α) :
    dictFind? (dictInsert l k v) k = some v := by
  unfold dictInsert
  by_cases hs : (dictFind? l k).isSome
  · rw [if_pos hs]
    exact dictFind?_overwrite_self l k v hs
  · rw [if_neg hs]
    exact dictFind?_append_singleton_self l k v (Option.not_isSome_iff_eq_none.1 hs)

theorem dictFind?_overwrite_ne {α : Type} (l : List (String × α)) (k k' : String) (v : α)
    (h : k' ≠ k) :
    dictFind? (l.map (fun p => if p.1 = k then (k, v) else p)) k' = dictFind? l k' := by
  induction l with
  | nil => rfl
  | cons p rest ih =>
    by_cases hp : p.1 = k
    · rw [List.map_cons, if_pos hp, dictFind?, dictFind?,
        if_neg (fun hc => h hc.symm), if_neg (fun hc : p.1 = k' => h (hp ▸ hc).symm)]
      exact ih
    · rw [List.map_cons, if_neg hp, dictFind?, dictFind?]
      by_cases hq : p.1 = k'
      · rw [if_pos hq, if_pos hq]
      · rw [if_neg hq, if_neg hq]
        exact ih

theorem dictFind?_append_singleton_ne {α : Type} (l : List (String × α)) (k k' : String)
    (v : α) (h : k' ≠ k) : dictFind? (l ++ [(k, v)]) k' = dictFind? l k' := by
  induction l with
  | nil => simp [dictFind?, Ne.symm h]
  | cons p rest ih =>
    rw [List.cons_append, dictFind?, dictFind?]
    by_cases hq : p.1 = k'
    · rw [if_pos hq, if_pos hq]
    · rw [if_neg hq, if_neg hq]
      exact ih

theorem dictFind?_insert_ne {α : Type} (l : List (String × α)) (k k' : String) (v : α)
    (h : k' ≠ k) : dictFind? (dictInsert l k v) k' = dictFind? l k' := by
  unfold dictInsert
  by_cases hs : (dictFind? l k).isSome
  · rw [if_pos hs]
    exact dictFind?_overwrite_ne l k k' v h
  · rw [if_neg hs]
    exact dictFind?_append_singleton_ne l k k' v h

theorem dictFind?_erase_self {α : Type} (l : List (String × α)) (k : String) :
    dictFind? (dictErase l k) k = none := by
  induction l with
  | nil => simp [dictErase, dictFind?]
  | cons p rest ih =>
    unfold dictErase at ih ⊢
    by_cases hp : p.1 = k
    · simp only [List.filter_cons, hp]
      simpa using ih
    · simp only [List.filter_cons, decide_eq_true_eq]
      rw [if_pos (by simpa using hp), dictFind?, if_neg hp]
      exact ih

theorem dictFind?_erase_ne {α : Type} (l : List (String × α)) (k k' : String)
    (h : k' ≠ k) : dictFind? (dictErase l k) k' = dictFind? l k' := by
  induction l with
  | nil => simp [dictErase, dictFind?]
  | cons p rest ih =>
    unfold dictErase at ih ⊢
    by_cases hp : p.1 = k
    · have hpred : decide (p.1 ≠ k) = false := by simp [hp]
      rw [List.filter_cons, hpred]
      simp only [Bool.false_eq_true, if_false]
      rw [dictFind?, if_neg (show ¬ p.1 = k' by rw [hp]; exact fun hc => h hc.symm)]
      exact ih
    · have hpred : decide (p.1 ≠ k) = true := by simp [hp]
      rw [List.filter_cons, hpred]
      simp only [if_true]
      rw [dictFind?, dictFind?]
      by_cases hq : p.1 = k'
      · rw [if_pos hq, if_pos hq]
      · rw [if_neg hq, if_neg hq]
        exact ih

theorem dictErase_map_fst {α : Type} (l : List (String × α)) (k : String) :
    (dictErase l k).map Prod.fst = (l.map Prod.fst).filter (fun x => decide (x ≠ k)) := by
  induction l with
  | nil => rfl
  | cons p rest ih =>
    unfold dictErase at ih ⊢
    rw [List.map_cons, List.filter_cons, List.filter_cons]
    by_cases hp : p.1 = k
    · have h1 : decide (p.1 ≠ k) = false := by simp [hp]
      rw [h1]
      simp only [Bool.false_eq_true, if_false]
      exact ih
    · have h1 : decide (p.1 ≠ k) = true := by simp [hp]
      rw [h1]
      simp only [if_true]
      rw [List.map_cons, ih]

/-! ### Claim C9: query_similar calls a nonexistent method -/

/-- C9: for a query that is nonempty after stripping, query_similar always
fails with AttributeError, because VectorDB defines no attribute named
search_vectors; for empty/whitespace-only queries it returns []. -/
theorem C9_query_similar_attribute_error (s : VectorDB) (query : String)
    (qe : List ℚ) (top_k : Nat) :
    (pyStrip query.toList ≠ [] →
      query_similar s query qe top_k =
        Except.error "AttributeError: VectorDB object has no attribute search_vectors") ∧
    (pyStrip query.toList = [] → query_similar s query qe top_k = Except.ok []) := by
  constructor
  · intro h
    unfold query_similar
    rw [if_neg h, if_neg (by decide)]
  · intro h
    unfold query_similar
    rw [if_pos h]

/-- Witness for C9 at concrete queries. -/
theorem C9_query_similar_attribute_error_witness :
    pyStrip ("hello".toList) ≠ [] ∧
    query_similar (VectorDB.init 2) "hello" [1, 0] 5 =
      Except.error "AttributeError: VectorDB object has no attribute search_vectors" ∧
    pyStrip ("  ".toList) = [] ∧
    query_similar (VectorDB.init 2) "  " [1, 0] 5 = Except.ok [] :=
  ⟨by decide,
   (C9_query_similar_attribute_error (VectorDB.init 2) "hello" [1, 0] 5).1 (by decide),
   by decide,
   (C9_query_similar_attribute_error (VectorDB.init 2) "  " [1, 0] 5).2 (by decide)⟩

/-! ### Claim C8: persistence failures are swallowed, not propagated -/

/-- C8 counterexample: with both disk writes failing, add_document still
returns success (the exceptions are caught and logged inside
_save_metadata/_save_index and never reach the caller), contradicting the
claim that storage exceptions propagate. Likewise a delete over a store
with one document succeeds despite both writes failing. -/
theorem C8_counterexample :
    (add_document_persist true true (VectorDB.init 2) "t" "p" ["a"] [[1, 0]] "ts").isOk
      = true ∧
    add_document_persist true true (VectorDB.init 2) "t" "p" ["a"] [[1, 0]] "ts" =
      add_document (VectorDB.init 2) "t" "p" ["a"] [[1, 0]] "ts" := by
  constructor
  · rfl
  · rfl

/-- C8 amended: exceptions raised by the underlying storage while
persisting the metadata or index file during add_document or
delete_document are caught and logged inside _save_metadata/_save_index;
the operation completes exactly as if persistence had succeeded, and no
exception reaches the caller. -/
theorem C8_persistence_swallowed (metaFails indexFails : Bool) (s : VectorDB)
    (title file_path now : String) (chunks : List String)
    (embeddings : List (List ℚ)) (arg : PyId) :
    add_document_persist metaFails indexFails s title file_path chunks embeddings now =
      add_document s title file_path chunks embeddings now ∧
    delete_document_persist metaFails indexFails s arg =
      Except.ok (delete_document s arg) := by
  have hm : save_metadata metaFails = Except.ok () := by cases metaFails <;> rfl
  have hi : save_index indexFails = Except.ok () := by cases indexFails <;> rfl
  constructor
  · unfold add_document_persist
    rw [hm, hi]
    cases h : add_document s title file_path chunks embeddings now with
    | error e => rfl
    | ok r =>
      obtain ⟨docId, s3⟩ := r
      rfl
  · unfold delete_document_persist
    rw [hm, hi]
    by_cases h : (delete_document s arg).1 = false
    · rw [if_pos h]
    · rw [if_neg h]

/-! ### Claim C3: dimension mismatch on add_document -/

/-- C3 counterexample: adding a 1-wide embedding to a dimension-2 store
does fail, but the in-memory state IS mutated: the documents table gains
a (chunk-less) record and next_doc_id increments, so the document count
after the failed call differs from the count before it. -/
theorem C3_counterexample :
    add_document (VectorDB.init 2) "t" "p" ["a"] [[1]] "ts" =
      Except.error ("assert d == self.d",
        VectorDB.mk [("1", DocInfo.mk "t" "p" 1 "ts" none)] [] 2 1 [] 2) ∧
    get_stats (VectorDB.mk [("1", DocInfo.mk "t" "p" 1 "ts" none)] [] 2 1 [] 2) ≠
      get_stats (VectorDB.init 2) := by
  constructor
  · rfl
  · decide

/-- C3 amended: add_document with an embedding matrix of the wrong width
fails (the FAISS dimension assert propagates), and the chunk count,
vector count and next_chunk_id are unchanged — but the document table has
gained one (chunk-less) record and next_doc_id has incremented, so the
state IS mutated. -/
theorem C3_dimension_mismatch (s : VectorDB) (title file_path now : String)
    (chunks : List String) (embeddings : List (List ℚ))
    (hWf : Wf s)
    (hne : chunks.length ≠ 0) (hlen : chunks.length = embeddings.length)
    (hbad : ∃ e ∈ embeddings, e.length ≠ s.dimension) :
    ∃ s', add_document s title file_path chunks embeddings now =
        Except.error ("assert d == self.d", s') ∧
      s'.chunks = s.chunks ∧ s'.index = s.index ∧
      s'.next_chunk_id = s.next_chunk_id ∧
      s'.next_doc_id = s.next_doc_id + 1 ∧
      s'.documents.length = s.documents.length + 1 ∧
      get_stats s' =
        Stats.mk (s.documents.length + 1) s.chunks.length s.index.length s.dimension := by
  obtain ⟨hnd1, hnd2, hcore, hdf, hcf, hdocs⟩ := hWf
  have hfresh : dictFind? s.documents (toString s.next_doc_id) = none := by
    rw [dictFind?_eq_none]
    intro hmem
    have := hdf _ hmem
    rw [decode_toString] at this
    omega
  have hne2 : ¬ (chunks.length = 0 ∨ embeddings.length = 0) := by omega
  have hne3 : ¬ (chunks.length ≠ embeddings.length) := fun hc => hc hlen
  have hall : ¬ (embeddings.all (fun e => decide (e.length = s.dimension)) = true) := by
    rw [List.all_eq_true]
    intro hforall
    obtain ⟨e, he, hne'⟩ := hbad
    exact hne' (by simpa using hforall e he)
  refine ⟨VectorDB.mk (dictInsert s.documents (toString s.next_doc_id)
      (DocInfo.mk title file_path chunks.length now none)) s.chunks (s.next_doc_id + 1)
      s.next_chunk_id s.index s.dimension, ?_, rfl, rfl, rfl, rfl, ?_, ?_⟩
  · unfold add_document
    rw [if_neg hne2, if_neg hne3, if_neg hall]
  · show (dictInsert s.documents (toString s.next_doc_id)
        (DocInfo.mk title file_path chunks.length now none)).length = s.documents.length + 1
    rw [dictInsert_of_fresh _ _ _ hfresh, List.length_append]
    simp
  · simp only [get_stats]
    rw [dictInsert_of_fresh _ _ _ hfresh, List.length_append]
    simp

/-- Witness for C3_dimension_mismatch at a concrete input. -/
theorem C3_dimension_mismatch_witness :
    (Wf (VectorDB.init 2) ∧ (["a"] : List String).length ≠ 0 ∧
      (["a"] : List String).length = ([[1]] : List (List ℚ)).length ∧
      ∃ e ∈ ([[1]] : List (List ℚ)), e.length ≠ (VectorDB.init 2).dimension) ∧
    ∃ s', add_document (VectorDB.init 2) "t" "p" ["a"] [[1]] "ts" =
        Except.error ("assert d == self.d", s') ∧
      s'.chunks = (VectorDB.init 2).chunks ∧ s'.index = (VectorDB.init 2).index ∧
      s'.next_chunk_id = (VectorDB.init 2).next_chunk_id ∧
      s'.next_doc_id = (VectorDB.init 2).next_doc_id + 1 ∧
      s'.documents.length = (VectorDB.init 2).documents.length + 1 ∧
      get_stats s' = Stats.mk ((VectorDB.init 2).documents.length + 1)
        (VectorDB.init 2).chunks.length (VectorDB.init 2).index.length
        (VectorDB.init 2).dimension :=
  ⟨⟨by decide, by decide, by decide, ⟨[1], by decide, by decide⟩⟩,
   C3_dimension_mismatch (VectorDB.init 2) "t" "p" "ts" ["a"] [[1]]
     (by decide) (by decide) (by decide) ⟨[1], by decide, by decide⟩⟩

/-! ### Characterization of add_document -/

theorem overwrite_map_of_fresh {α : Type} (l : List (String × α)) (k : String) (v : α)
    (hfresh : k ∉ l.map Prod.fst) :
    l.map (fun p => if p.1 = k then (k, v) else p) = l := by
  induction l with
  | nil => rfl
  | cons p rest ih =>
    rw [List.map_cons] at hfresh ⊢
    simp only [List.mem_cons] at hfresh
    push_neg at hfresh
    rw [if_neg (fun hc => hfresh.1 hc.symm), ih hfresh.2]

theorem dictInsert_overwrite_append {α : Type} (l : List (String × α)) (k : String)
    (v₁ v₂ : α) (hfresh : dictFind? l k = none) :
    dictInsert (l ++ [(k, v₁)]) k v₂ = l ++ [(k, v₂)] := by
  unfold dictInsert
  rw [if_pos (by rw [dictFind?_append_singleton_self l k v₁ hfresh]; rfl)]
  rw [List.map_append, overwrite_map_of_fresh l k v₂ ((dictFind?_eq_none l k).1 hfresh)]
  simp

theorem chunkEntries_length (doc_id now : String) (base : Nat) :
    ∀ (texts : List String) (i nid : Nat),
      (chunkEntries doc_id now base texts i nid).length = texts.length := by
  intro texts
  induction texts with
  | nil => intro i nid; rfl
  | cons t rest ih => intro i nid; simp [chunkEntries, ih]

theorem chunkEntries_mem (doc_id now : String) (base : Nat) :
    ∀ (texts : List String) (i nid : Nat) (p : String × ChunkInfo),
      p ∈ chunkEntries doc_id now base texts i nid →
      ∃ j, j < texts.length ∧ p.1 = toString (nid + j) ∧
        p.2.vector_index = base + i + j ∧ p.2.index = i + j ∧ p.2.doc_id = doc_id := by
  intro texts
  induction texts with
  | nil => intro i nid p hp; simp [chunkEntries] at hp
  | cons t rest ih =>
    intro i nid p hp
    rw [chunkEntries] at hp
    rcases List.mem_cons.1 hp with rfl | hp
    · exact ⟨0, Nat.succ_pos rest.length, by simp, by simp, by simp, rfl⟩
    · obtain ⟨j, hj, h1, h2, h3, h4⟩ := ih (i + 1) (nid + 1) p hp
      have e1 : (nid + 1) + j = nid + (j + 1) := by omega
      have e2 : base + (i + 1) + j = base + i + (j + 1) := by omega
      have e3 : (i + 1) + j = i + (j + 1) := by omega
      exact ⟨j + 1, by rw [List.length_cons]; omega, by rw [h1, e1], by rw [h2, e2],
        by rw [h3, e3], h4⟩

theorem chunkEntries_keys_nodup (doc_id now : String) (base : Nat) :
    ∀ (texts : List String) (i nid : Nat),
      ((chunkEntries doc_id now base texts i nid).map Prod.fst).Nodup := by
  intro texts
  induction texts with
  | nil => intro i nid; simp [chunkEntries]
  | cons t rest ih =>
    intro i nid
    rw [chunkEntries, List.map_cons, List.nodup_cons]
    refine ⟨?_, ih (i + 1) (nid + 1)⟩
    intro hmem
    obtain ⟨p, hp, hk⟩ := List.mem_map.1 hmem
    obtain ⟨j, hj, h1, _, _, _⟩ := chunkEntries_mem doc_id now base rest (i + 1) (nid + 1) p hp
    have hts : toString (nid + 1 + j) = toString nid := by
      rw [← h1]
      simpa using hk
    have heq := natKey_injective hts
    omega

theorem chunkEntries_vi_nodup (doc_id now : String) (base : Nat) :
    ∀ (texts : List String) (i nid : Nat),
      ((chunkEntries doc_id now base texts i nid).map (fun p => p.2.vector_index)).Nodup := by
  intro texts
  induction texts with
  | nil => intro i nid; simp [chunkEntries]
  | cons t rest ih =>
    intro i nid
    rw [chunkEntries, List.map_cons, List.nodup_cons]
    refine ⟨?_, ih (i + 1) (nid + 1)⟩
    intro hmem
    obtain ⟨p, hp, hk⟩ := List.mem_map.1 hmem
    obtain ⟨j, hj, _, h2, _, _⟩ := chunkEntries_mem doc_id now base rest (i + 1) (nid + 1) p hp
    rw [h2] at hk
    simp at hk
    omega

theorem chunkEntries_find_vi (doc_id now : String) (base : Nat) :
    ∀ (texts : List String) (i nid idx : Nat), idx < texts.length →
      (chunkEntries doc_id now base texts i nid).find?
          (fun c => decide (c.2.vector_index = base + i + idx)) =
        some (toString (nid + idx),
          ChunkInfo.mk doc_id (i + idx) (base + i + idx)
            (previewText (texts.getD idx "")) now) := by
  intro texts
  induction texts with
  | nil => intro i nid idx h; simp at h
  | cons t rest ih =>
    intro i nid idx h
    rw [chunkEntries]
    cases idx with
    | zero => simp
    | succ idx =>
      rw [List.find?_cons_of_neg _ (by simp)]
      have e1 : base + i + (idx + 1) = base + (i + 1) + idx := by omega
      have e2 : nid + (idx + 1) = (nid + 1) + idx := by omega
      have e3 : i + (idx + 1) = (i + 1) + idx := by omega
      rw [List.getD_cons_succ, e1, e2, e3]
      exact ih (i + 1) (nid + 1) idx (by simpa using h)

theorem addChunkLoop_spec (doc_id now : String) (base : Nat) :
    ∀ (texts : List String) (i nid : Nat) (cmap : List (String × ChunkInfo)),
      (∀ k ∈ cmap.map Prod.fst, decodeDigits k.toList < nid) →
      addChunkLoop doc_id now base texts i nid cmap =
        ((chunkEntries doc_id now base texts i nid).map Prod.fst,
         nid + texts.length,
         cmap ++ chunkEntries doc_id now base texts i nid) := by
  intro texts
  induction texts with
  | nil =>
    intro i nid cmap h
    simp [addChunkLoop, chunkEntries]
  | cons t rest ih =>
    intro i nid cmap h
    have hfresh : dictFind? cmap (toString nid) = none := by
      rw [dictFind?_eq_none]
      intro hmem
      have := h _ hmem
      rw [decode_toString] at this
      omega
    have h' : ∀ k ∈ (cmap ++ [(toString nid,
        ChunkInfo.mk doc_id i (base + i) (previewText t) now)]).map Prod.fst,
        decodeDigits k.toList < nid + 1 := by
      intro k hk
      rw [List.map_append, List.mem_append] at hk
      rcases hk with hk | hk
      · have := h _ hk
        omega
      · simp at hk
        subst hk
        rw [decode_toString]
        omega
    simp only [addChunkLoop, chunkEntries]
    rw [dictInsert_of_fresh _ _ _ hfresh]
    rw [ih (i + 1) (nid + 1) _ h']
    simp only [List.map_cons, List.length_cons, Prod.mk.injEq, List.append_assoc,
      List.singleton_append, true_and, and_true, eq_self_iff_true]
    omega

/-- Closed form of a successful add_document: returns the integer value of
the new document ID; appends the document record (keyed by the decimal
string of next_doc_id, carrying the chunk_ids list), the chunk records
(consecutive IDs from next_chunk_id, vector positions continuing from the
old vector count) and the embedding vectors; increments the counters. -/
theorem add_document_ok_spec (s : VectorDB) (title file_path now : String)
    (chunks : List String) (embeddings : List (List ℚ))
    (hdfresh : ∀ k ∈ s.documents.map Prod.fst, decodeDigits k.toList < s.next_doc_id)
    (hcfresh : ∀ k ∈ s.chunks.map Prod.fst, decodeDigits k.toList < s.next_chunk_id)
    (hne : chunks.length ≠ 0) (hlen : chunks.length = embeddings.length)
    (hdim : ∀ e ∈ embeddings, e.length = s.dimension) :
    add_document s title file_path chunks embeddings now = Except.ok (s.next_doc_id,
      VectorDB.mk
        (s.documents ++ [(toString s.next_doc_id,
          DocInfo.mk title file_path chunks.length now
            (some ((chunkEntries (toString s.next_doc_id) now s.index.length chunks 0
              s.next_chunk_id).map Prod.fst)))])
        (s.chunks ++ chunkEntries (toString s.next_doc_id) now s.index.length chunks 0
          s.next_chunk_id)
        (s.next_doc_id + 1)
        (s.next_chunk_id + chunks.length)
        (s.index ++ embeddings)
        s.dimension) := by
  have hne2 : ¬ (chunks.length = 0 ∨ embeddings.length = 0) := by omega
  have hne3 : ¬ (chunks.length ≠ embeddings.length) := fun hc => hc hlen
  have hall : embeddings.all (fun e => decide (e.length = s.dimension)) = true := by
    rw [List.all_eq_true]
    intro e he
    simpa using hdim e he
  have hdocfresh : dictFind? s.documents (toString s.next_doc_id) = none := by
    rw [dictFind?_eq_none]
    intro hmem
    have := hdfresh _ hmem
    rw [decode_toString] at this
    omega
  unfold add_document
  rw [if_neg hne2, if_neg hne3, if_pos hall]
  simp only []
  rw [List.length_append, show s.index.length + embeddings.length - chunks.length
      = s.index.length by omega]
  rw [addChunkLoop_spec (toString s.next_doc_id) now s.index.length chunks 0
      s.next_chunk_id s.chunks hcfresh]
  simp only []
  rw [dictInsert_of_fresh _ _ _ hdocfresh,
    dictInsert_overwrite_append _ _ _ _ hdocfresh]

/-! ### Claim C10: string-keyed records and str() coercion of ID arguments -/

/-- C10: get_document_by_id, get_chunk_by_id and delete_document coerce
their ID argument with str(), so the int `n` and the string `str(n)` are
interchangeable; a successful add_document returns the new document ID as
the int next_doc_id while storing the record under the decimal-string key,
where it is retrievable by either form of the ID. -/
theorem C10_id_coercion (s : VectorDB) (n : Nat) (title file_path now : String)
    (chunks : List String) (embeddings : List (List ℚ)) (hWf : Wf s)
    (hne : chunks.length ≠ 0) (hlen : chunks.length = embeddings.length)
    (hdim : ∀ e ∈ embeddings, e.length = s.dimension) :
    get_document_by_id s (PyId.int n) = get_document_by_id s (PyId.str (toString n)) ∧
    get_chunk_by_id s (PyId.int n) = get_chunk_by_id s (PyId.str (toString n)) ∧
    delete_document s (PyId.int n) = delete_document s (PyId.str (toString n)) ∧
    ∃ s', add_document s title file_path chunks embeddings now =
        Except.ok (s.next_doc_id, s') ∧
      (get_document_by_id s' (PyId.int s.next_doc_id)).isSome = true ∧
      (get_document_by_id s' (PyId.str (toString s.next_doc_id))).isSome = true := by
  obtain ⟨hnd1, hnd2, hcore, hdf, hcf, hdocs⟩ := hWf
  have hdocfresh : dictFind? s.documents (toString s.next_doc_id) = none := by
    rw [dictFind?_eq_none]
    intro hmem
    have := hdf _ hmem
    rw [decode_toString] at this
    omega
  refine ⟨rfl, rfl, rfl, _,
    add_document_ok_spec s title file_path now chunks embeddings hdf hcf hne hlen hdim,
    ?_, ?_⟩
  · show (dictFind? (s.documents ++ [(toString s.next_doc_id, _)])
      (toString s.next_doc_id)).isSome = true
    rw [dictFind?_append_singleton_self _ _ _ hdocfresh]
    rfl
  · show (dictFind? (s.documents ++ [(toString s.next_doc_id, _)])
      (toString s.next_doc_id)).isSome = true
    rw [dictFind?_append_singleton_self _ _ _ hdocfresh]
    rfl

/-- Witness for C10_id_coercion at a concrete store and inputs. -/
theorem C10_id_coercion_witness :
    (Wf (VectorDB.init 2) ∧ (["x", "y"] : List String).length ≠ 0 ∧
      (["x", "y"] : List String).length = ([[1, 0], [0, 1]] : List (List ℚ)).length ∧
      ∀ e ∈ ([[1, 0], [0, 1]] : List (List ℚ)), e.length = (VectorDB.init 2).dimension) ∧
    (get_document_by_id (VectorDB.init 2) (PyId.int 7) =
      get_document_by_id (VectorDB.init 2) (PyId.str (toString 7)) ∧
    get_chunk_by_id (VectorDB.init 2) (PyId.int 7) =
      get_chunk_by_id (VectorDB.init 2) (PyId.str (toString 7)) ∧
    delete_document (VectorDB.init 2) (PyId.int 7) =
      delete_document (VectorDB.init 2) (PyId.str (toString 7)) ∧
    ∃ s', add_document (VectorDB.init 2) "t" "p" ["x", "y"] [[1, 0], [0, 1]] "ts" =
        Except.ok ((VectorDB.init 2).next_doc_id, s') ∧
      (get_document_by_id s' (PyId.int (VectorDB.init 2).next_doc_id)).isSome = true ∧
      (get_document_by_id s'
        (PyId.str (toString (VectorDB.init 2).next_doc_id))).isSome = true) :=
  ⟨⟨by decide, by decide, by decide, by decide⟩,
   C10_id_coercion (VectorDB.init 2) 7 "t" "p" "ts" ["x", "y"] [[1, 0], [0, 1]]
     (by decide) (by decide) (by decide) (by decide)⟩

/-! ### Search lemmas -/

theorem sqDist_self (v : List ℚ) : sqDist v v = 0 := by
  induction v with
  | nil => rfl
  | cons a v ih =>
    have ih' : (List.zipWith (fun a b => (a - b) * (a - b)) v v).sum = 0 := ih
    simp [sqDist, List.zipWith_cons_cons, ih']

theorem sqDist_nonneg (u v : List ℚ) : 0 ≤ sqDist u v := by
  induction u generalizing v with
  | nil => simp [sqDist]
  | cons a u ih =>
    cases v with
    | nil => simp [sqDist]
    | cons b v =>
      simp only [sqDist, List.zipWith_cons_cons, List.sum_cons]
      have h1 := ih v
      have h2 := mul_self_nonneg (a - b)
      unfold sqDist at h1
      nlinarith

theorem chunkEntries_find_vi_zero (doc_id now : String) (texts : List String)
    (nid idx : Nat) (h : idx < texts.length) :
    (chunkEntries doc_id now 0 texts 0 nid).find?
        (fun c => decide (c.2.vector_index = idx)) =
      some (toString (nid + idx),
        ChunkInfo.mk doc_id idx idx (previewText (texts.getD idx "")) now) := by
  have := chunkEntries_find_vi doc_id now 0 texts 0 nid idx h
  simpa using this

theorem resolveResults_ok_spec (s : VectorDB) :
    ∀ prs : List (Nat × ℚ),
      (∀ pr ∈ prs, ∃ c, s.chunks.find?
          (fun c => decide (c.2.vector_index = pr.1)) = some c ∧
        (dictFind? s.documents c.2.doc_id).isSome = true) →
      ∃ res, resolveResults s prs = Except.ok res ∧ res.length = prs.length ∧
        ∀ (m : Nat) (pr : Nat × ℚ), prs[m]? = some pr →
          ∃ (c : String × ChunkInfo) (doc : DocInfo),
            s.chunks.find? (fun c => decide (c.2.vector_index = pr.1)) = some c ∧
            dictFind? s.documents c.2.doc_id = some doc ∧
            res[m]? = some (SearchResult.mk c.1 c.2.doc_id doc.title c.2.index
              (1 / (1 + pr.2)) pr.2 c.2.text) := by
  intro prs
  induction prs with
  | nil => exact fun _ => ⟨[], rfl, rfl, by simp⟩
  | cons pr rest ih =>
    intro h
    obtain ⟨c, hc, hdoc⟩ := h pr (List.mem_cons_self _ _)
    obtain ⟨doc, hdoc'⟩ := Option.isSome_iff_exists.1 hdoc
    obtain ⟨res, hres, hlen, hspec⟩ := ih (fun pr' hpr' => h pr' (List.mem_cons_of_mem _ hpr'))
    refine ⟨SearchResult.mk c.1 c.2.doc_id doc.title c.2.index
      (1 / (1 + pr.2)) pr.2 c.2.text :: res, ?_, by simp [hlen], ?_⟩
    · simp only [resolveResults, hc, hdoc', hres]
    · intro m pr' hm
      cases m with
      | zero =>
        rw [List.getElem?_cons_zero] at hm
        cases hm
        exact ⟨c, doc, hc, hdoc', by simp⟩
      | succ m =>
        rw [List.getElem?_cons_succ] at hm
        obtain ⟨c', doc', h1, h2, h3⟩ := hspec m pr' hm
        exact ⟨c', doc', h1, h2, by simpa using h3⟩

/-! ### Claim C5: insert/search round trip -/

/-- C5: after adding a document with N chunks and N matching embeddings to
a fresh store, searching with chunk j's exact embedding (top_k at least N)
returns a result list whose top entry has reported distance 0 and
similarity 1, and chunk j itself appears among the results with distance
0 and similarity 1 — tied-top, since results come sorted by ascending
distance, so everything ranked above it also has distance 0. -/
theorem C5_roundtrip (d : Nat) (title file_path now : String)
    (texts : List String) (embeddings : List (List ℚ)) (j top_k : Nat)
    (hne : texts.length ≠ 0) (hlen : texts.length = embeddings.length)
    (hdim : ∀ e ∈ embeddings, e.length = d) (hj : j < embeddings.length)
    (htop : embeddings.length ≤ top_k) :
    ∃ s1 res, add_document (VectorDB.init d) title file_path texts embeddings now =
        Except.ok (1, s1) ∧
      search s1 (embeddings.getD j []) top_k = Except.ok res ∧
      res ≠ [] ∧
      (∀ r0, res.head? = some r0 → r0.distance = 0 ∧ r0.similarity = 1) ∧
      ∃ r ∈ res, r.chunk_id = toString (1 + j) ∧ r.distance = 0 ∧ r.similarity = 1 := by
  have hget : embeddings.getD j [] = embeddings[j] := by
    rw [List.getD_eq_getElem?_getD, List.getElem?_eq_getElem hj]
    rfl
  set q := embeddings.getD j [] with hqdef
  set entries := chunkEntries (toString (1 : Nat)) now 0 texts 0 1 with hent
  set s1 : VectorDB := VectorDB.mk
      [(toString (1 : Nat),
        DocInfo.mk title file_path texts.length now (some (entries.map Prod.fst)))]
      entries 2 (1 + texts.length) embeddings d with hs1
  have hmk : add_document (VectorDB.init d) title file_path texts embeddings now
      = Except.ok (1, s1) := by
    have h0 := add_document_ok_spec (VectorDB.init d) title file_path now texts embeddings
      (by intro k hk; simp [VectorDB.init] at hk)
      (by intro k hk; simp [VectorDB.init] at hk) hne hlen hdim
    simpa [VectorDB.init, hs1, hent] using h0
  haveI instTot : IsTotal (Nat × ℚ) (fun x y => x.2 ≤ y.2) :=
    ⟨fun a b => le_total a.2 b.2⟩
  haveI instTrans : IsTrans (Nat × ℚ) (fun x y => x.2 ≤ y.2) :=
    ⟨fun a b c hab hbc => le_trans hab hbc⟩
  set cands := embeddings.enum.map (fun p => (p.1, sqDist q p.2)) with hcands
  set sorted := List.insertionSort (fun x y : Nat × ℚ => x.2 ≤ y.2) cands with hsorted_def
  have hperm : sorted.Perm cands := List.perm_insertionSort _ _
  have hsorted : List.Sorted (fun x y : Nat × ℚ => x.2 ≤ y.2) sorted :=
    List.sorted_insertionSort _ _
  have hcands_len : cands.length = embeddings.length := by
    rw [hcands, List.length_map, List.enum_length]
  have hsorted_len : sorted.length = embeddings.length := by
    rw [hperm.length_eq, hcands_len]
  have hknn : knnSearch embeddings q top_k = sorted := by
    have hle : sorted.length ≤ top_k := by rw [hsorted_len]; exact htop
    unfold knnSearch
    rw [← hcands, ← hsorted_def, List.take_of_length_le hle]
  have hcand_mem : ∀ pr ∈ cands, pr.1 < embeddings.length ∧ 0 ≤ pr.2 := by
    intro pr hpr
    rw [hcands, List.mem_map] at hpr
    obtain ⟨p, hp, rfl⟩ := hpr
    have hmem := List.mem_enum_iff_getElem?.1 hp
    constructor
    · by_contra hge
      rw [List.getElem?_eq_none (by omega)] at hmem
      cases hmem
    · exact sqDist_nonneg _ _
  have hj0 : ((j, 0) : Nat × ℚ) ∈ cands := by
    rw [hcands, List.mem_map]
    refine ⟨(j, embeddings.getD j []), ?_, ?_⟩
    · rw [List.mem_enum_iff_getElem?]
      simp only [List.getElem?_eq_getElem hj]
      rw [← hqdef, hget]
    · show (j, sqDist q (embeddings.getD j [])) = (j, 0)
      rw [← hqdef, sqDist_self]
  obtain ⟨pr0, rest, hcons⟩ := List.exists_cons_of_ne_nil
    (show sorted ≠ [] by intro hc; rw [hc] at hsorted_len; simp at hsorted_len; omega)
  have hpr0_dist : pr0.2 = 0 := by
    have hmem0 : ((j, 0) : Nat × ℚ) ∈ sorted := hperm.mem_iff.2 hj0
    have h1 : 0 ≤ pr0.2 :=
      (hcand_mem pr0 (hperm.subset (hcons ▸ List.mem_cons_self _ _))).2
    rw [hcons] at hmem0
    rcases List.mem_cons.1 hmem0 with heq | hmem0'
    · rw [← heq]
    · have hs := hsorted
      rw [hcons, List.sorted_cons] at hs
      have h2 := hs.1 _ hmem0'
      exact le_antisymm h2 h1
  have hresolve : ∀ pr ∈ sorted, ∃ c, s1.chunks.find?
      (fun c => decide (c.2.vector_index = pr.1)) = some c ∧
      (dictFind? s1.documents c.2.doc_id).isSome = true := by
    intro pr hpr
    have hlt : pr.1 < texts.length := by
      have := (hcand_mem pr (hperm.subset hpr)).1
      omega
    refine ⟨(toString (1 + pr.1), ChunkInfo.mk (toString (1 : Nat)) pr.1 pr.1
      (previewText (texts.getD pr.1 "")) now), ?_, ?_⟩
    · exact chunkEntries_find_vi_zero (toString (1 : Nat)) now texts 1 pr.1 hlt
    · show (dictFind? s1.documents (toString (1 : Nat))).isSome = true
      rw [show s1.documents = [(toString (1 : Nat), DocInfo.mk title file_path
        texts.length now (some (entries.map Prod.fst)))] from rfl]
      rw [dictFind?, if_pos rfl]
      rfl
  obtain ⟨res, hresolved, hreslen, hspec⟩ := resolveResults_ok_spec s1 sorted hresolve
  have hsearch : search s1 q top_k = Except.ok res := by
    unfold search
    rw [if_neg (show ¬ (s1.index.length = 0) by
      show ¬ (embeddings.length = 0); omega)]
    show resolveResults s1 (knnSearch embeddings q top_k) = Except.ok res
    rw [hknn]
    exact hresolved
  refine ⟨s1, res, hmk, hsearch, ?_, ?_, ?_⟩
  · intro hc
    rw [hc] at hreslen
    rw [hcons] at hreslen
    simp at hreslen
  · intro r0 hr0
    rw [List.head?_eq_getElem?] at hr0
    have hp0 : sorted[0]? = some pr0 := by rw [hcons]; simp
    obtain ⟨c, doc, _, _, hres0⟩ := hspec 0 pr0 hp0
    rw [hres0] at hr0
    cases hr0
    constructor
    · exact hpr0_dist
    · show (1 : ℚ) / (1 + pr0.2) = 1
      rw [hpr0_dist]
      norm_num
  · have hmemj : ((j, 0) : Nat × ℚ) ∈ sorted := hperm.mem_iff.2 hj0
    obtain ⟨m, hm⟩ := List.mem_iff_getElem?.1 hmemj
    obtain ⟨c, doc, hfind, hdoc, hresm⟩ := hspec m (j, 0) hm
    have hc' := chunkEntries_find_vi_zero (toString (1 : Nat)) now texts 1 j (by omega)
    have hceq : c = (toString (1 + j), ChunkInfo.mk (toString (1 : Nat)) j j
        (previewText (texts.getD j "")) now) := by
      have h1 : entries.find? (fun c => decide (c.2.vector_index = j)) = some c := by
        simpa using hfind
      rw [hc'] at h1
      exact (Option.some.inj h1).symm
    refine ⟨_, List.getElem?_mem hresm, ?_, rfl, ?_⟩
    · show c.1 = toString (1 + j)
      rw [hceq]
    · show (1 : ℚ) / (1 + ((j, 0) : Nat × ℚ).2) = 1
      norm_num

/-- Witness for C5_roundtrip at a concrete store and inputs. -/
theorem C5_roundtrip_witness :
    ((["x", "y"] : List String).length ≠ 0 ∧
     (["x", "y"] : List String).length = ([[1, 0], [0, 1]] : List (List ℚ)).length ∧
     (∀ e ∈ ([[1, 0], [0, 1]] : List (List ℚ)), e.length = 2) ∧
     0 < ([[1, 0], [0, 1]] : List (List ℚ)).length ∧
     ([[1, 0], [0, 1]] : List (List ℚ)).length ≤ 5) ∧
    (∃ s1 res, add_document (VectorDB.init 2) "t" "p" ["x", "y"] [[1, 0], [0, 1]] "ts" =
        Except.ok (1, s1) ∧
      search s1 (([[1, 0], [0, 1]] : List (List ℚ)).getD 0 []) 5 = Except.ok res ∧
      res ≠ [] ∧
      (∀ r0, res.head? = some r0 → r0.distance = 0 ∧ r0.similarity = 1) ∧
      ∃ r ∈ res, r.chunk_id = toString (1 + 0) ∧ r.distance = 0 ∧ r.similarity = 1) :=
  ⟨⟨by decide, by decide, by decide, by decide, by decide⟩,
   C5_roundtrip 2 "t" "p" "ts" ["x", "y"] [[1, 0], [0, 1]] 0 5 (by decide) (by decide)
     (by decide) (by decide) (by decide)⟩

/-! ### Delete-path lemmas -/

theorem dictFind?_isSome_iff {α : Type} (l : List (String × α)) (k : String) :
    (dictFind? l k).isSome = true ↔ k ∈ l.map Prod.fst := by
  rw [Option.isSome_iff_ne_none]
  constructor
  · intro h
    by_contra hmem
    exact h ((dictFind?_eq_none l k).2 hmem)
  · intro h hc
    exact ((dictFind?_eq_none l k).1 hc) h

theorem length_eq_of_nodup_same_mem {α : Type} [DecidableEq α] (l₁ l₂ : List α)
    (h₁ : l₁.Nodup) (h₂ : l₂.Nodup) (h : ∀ x, x ∈ l₁ ↔ x ∈ l₂) :
    l₁.length = l₂.length := by
  rw [← List.toFinset_card_of_nodup h₁, ← List.toFinset_card_of_nodup h₂]
  congr 1
  ext x
  simp only [List.mem_toFinset]
  exact h x

theorem length_filter_partition {α : Type} (p : α → Bool) (l : List α) :
    (l.filter p).length + (l.filter (fun a => !(p a))).length = l.length := by
  have := (List.filter_append_perm p l).length_eq
  rw [List.length_append] at this
  exact this

theorem delChunks_chunks_eq : ∀ (ids : List String) (cmap : List (String × ChunkInfo)),
    (delChunks ids cmap).2 = cmap.filter (fun p => decide (p.1 ∉ ids)) := by
  intro ids
  induction ids with
  | nil =>
    intro cmap
    simp [delChunks]
  | cons cid rest ih =>
    intro cmap
    cases hfind : dictFind? cmap cid with
    | some info =>
      simp only [delChunks, hfind]
      rw [ih (dictErase cmap cid)]
      unfold dictErase
      rw [List.filter_filter]
      apply List.filter_congr
      intro p hp
      simp only [List.mem_cons, not_or, decide_not, Bool.decide_and]
      rw [Bool.and_comm]
    | none =>
      simp only [delChunks, hfind]
      rw [ih cmap]
      apply List.filter_congr
      intro p hp
      have hne : p.1 ≠ cid := by
        intro hc
        rw [dictFind?_eq_none] at hfind
        exact hfind (hc ▸ List.mem_map.2 ⟨p, hp, rfl⟩)
      simp [List.mem_cons, hne]

theorem delChunks_vis : ∀ (ids : List String) (cmap : List (String × ChunkInfo)),
    ids.Nodup →
    (delChunks ids cmap).1 =
      ids.filterMap (fun cid => (dictFind? cmap cid).map (fun c => c.vector_index)) := by
  intro ids
  induction ids with
  | nil => intro cmap h; rfl
  | cons cid rest ih =>
    intro cmap hnd
    rw [List.nodup_cons] at hnd
    cases hfind : dictFind? cmap cid with
    | some info =>
      simp only [delChunks, hfind, List.filterMap_cons, Option.map_some']
      rw [ih (dictErase cmap cid) hnd.2]
      congr 1
      apply List.filterMap_congr
      intro x hx
      rw [dictFind?_erase_ne cmap cid x (fun hc => hnd.1 (hc ▸ hx))]
    | none =>
      simp only [delChunks, hfind, List.filterMap_cons, Option.map_none']
      exact ih cmap hnd.2

theorem filterMap_length_of_all_isSome {α β : Type} (l : List α) (f : α → Option β)
    (h : ∀ a ∈ l, (f a).isSome = true) : (l.filterMap f).length = l.length := by
  induction l with
  | nil => rfl
  | cons a rest ih =>
    obtain ⟨b, hb⟩ := Option.isSome_iff_exists.1 (h a (List.mem_cons_self _ _))
    rw [List.filterMap_cons, hb, List.length_cons, List.length_cons,
      ih (fun x hx => h x (List.mem_cons_of_mem _ hx))]

theorem delChunks_vis_nodup (ids : List String) (cmap : List (String × ChunkInfo))
    (hnd : ids.Nodup) (hvi : (cmap.map (fun p => p.2.vector_index)).Nodup) :
    ((delChunks ids cmap).1).Nodup := by
  rw [delChunks_vis ids cmap hnd]
  refine List.Nodup.filterMap ?_ hnd
  intro a a' b hb hb'
  simp only [Option.mem_def] at hb hb'
  obtain ⟨c, hc, hcv⟩ : ∃ c, dictFind? cmap a = some c ∧ c.vector_index = b := by
    cases h : dictFind? cmap a with
    | none => rw [h] at hb; cases hb
    | some c => rw [h] at hb; exact ⟨c, rfl, by simpa using hb⟩
  obtain ⟨c', hc', hcv'⟩ : ∃ c', dictFind? cmap a' = some c' ∧ c'.vector_index = b := by
    cases h : dictFind? cmap a' with
    | none => rw [h] at hb'; cases hb'
    | some c' => rw [h] at hb'; exact ⟨c', rfl, by simpa using hb'⟩
  have h1 := dictFind?_mem _ _ _ hc
  have h2 := dictFind?_mem _ _ _ hc'
  have heq : (a, c) = (a', c') :=
    List.inj_on_of_nodup_map hvi h1 h2 (by rw [hcv, hcv'])
  exact congrArg Prod.fst heq

theorem indexOf_lt_indexOf_of_sorted {l : List Nat} (hs : List.Sorted (· < ·) l)
    {x y : Nat} (hx : x ∈ l) (hy : y ∈ l) (hxy : x < y) :
    l.indexOf x < l.indexOf y := by
  have hxl := List.indexOf_lt_length.2 hx
  have hyl := List.indexOf_lt_length.2 hy
  by_contra hle
  push_neg at hle
  rcases Nat.eq_or_lt_of_le hle with heq | hlt
  · have : y = x := (List.indexOf_inj hy hx).1 heq
    omega
  · have hmono := List.Sorted.get_strictMono hs
      (a := ⟨l.indexOf y, hyl⟩) (b := ⟨l.indexOf x, hxl⟩) hlt
    rw [List.get_eq_getElem, List.get_eq_getElem, List.getElem_indexOf hxl,
      List.getElem_indexOf hyl] at hmono
    omega

theorem range_filter_not_mem_length (total : Nat) (vis : List Nat) (hnd : vis.Nodup)
    (hlt : ∀ v ∈ vis, v < total) :
    ((List.range total).filter (fun i => decide (i ∉ vis))).length + vis.length = total := by
  have hmemlen : ((List.range total).filter (fun i => decide (i ∈ vis))).length
      = vis.length := by
    apply length_eq_of_nodup_same_mem
    · exact (List.nodup_range total).filter _
    · exact hnd
    · intro x
      simp only [List.mem_filter, List.mem_range, decide_eq_true_eq]
      exact ⟨fun h => h.2, fun h => ⟨hlt x h, h⟩⟩
  have hpart := length_filter_partition (fun i => decide (i ∈ vis)) (List.range total)
  have hcongr : (List.range total).filter (fun i => !(decide (i ∈ vis))) =
      (List.range total).filter (fun i => decide (i ∉ vis)) := by
    apply List.filter_congr
    intro x hx
    simp
  rw [hcongr, List.length_range] at hpart
  omega

/-- Full characterization of delete_document on a present document, under
well-formedness: it returns True; removes the document record and the
document's chunk records; shrinks the index by exactly the number of the
document's chunk ids; keeps every other chunk (same keys), remapping each
surviving chunk's vector_index order-preservingly onto the compacted
range so that it dereferences to the same stored vector; and the
vector-count/uniqueness/range invariant is preserved. -/
theorem delete_document_present (s : VectorDB) (doc_id : String) (doc : DocInfo)
    (hWf : Wf s) (hfind : dictFind? s.documents doc_id = some doc) :
    ∀ b s', delete_document s (PyId.str doc_id) = (b, s') →
      b = true ∧
      s'.documents = dictErase s.documents doc_id ∧
      s'.next_doc_id = s.next_doc_id ∧
      s'.next_chunk_id = s.next_chunk_id ∧
      s'.index.length + (doc.chunk_ids.getD []).length = s.index.length ∧
      s'.chunks.map Prod.fst =
        (s.chunks.filter (fun p => decide (p.1 ∉ doc.chunk_ids.getD []))).map Prod.fst ∧
      s'.chunks.length + (doc.chunk_ids.getD []).length = s.chunks.length ∧
      (∀ p ∈ s.chunks, p.1 ∉ doc.chunk_ids.getD [] →
        ∃ info', (p.1, info') ∈ s'.chunks ∧
          info'.vector_index < s'.index.length ∧
          s'.index[info'.vector_index]? = s.index[p.2.vector_index]? ∧
          ∀ q ∈ s.chunks, q.1 ∉ doc.chunk_ids.getD [] →
            ∀ infoq, (q.1, infoq) ∈ s'.chunks →
              (p.2.vector_index < q.2.vector_index ↔
                info'.vector_index < infoq.vector_index)) ∧
      CoreInv s' ∧
      (s'.chunks.map Prod.fst).Nodup := by
  intro b s' hdel
  obtain ⟨hnd_dockeys, hnd_keys, ⟨hcount, hvi_nodup, hvi_lt⟩, hdf, hcf, hdocs⟩ := hWf
  obtain ⟨hne_none, hids_nodup, hcc, hids_live⟩ :=
    hdocs (doc_id, doc) (dictFind?_mem _ _ _ hfind)
  simp only [delete_document, pyStr, hfind] at hdel
  set ids := doc.chunk_ids.getD [] with hids_def
  set vis := (delChunks ids s.chunks).1 with hvis_def
  set chunks1 := (delChunks ids s.chunks).2 with hchunks1_def
  have hall_some : ∀ cid ∈ ids, (dictFind? s.chunks cid).isSome = true :=
    fun cid hcid => (dictFind?_isSome_iff _ _).2 (hids_live cid hcid)
  have hvis_eq : vis = ids.filterMap
      (fun cid => (dictFind? s.chunks cid).map (fun c => c.vector_index)) :=
    delChunks_vis ids s.chunks hids_nodup
  have hvis_len : vis.length = ids.length := by
    rw [hvis_eq]
    apply filterMap_length_of_all_isSome
    intro cid hcid
    cases hdf2 : dictFind? s.chunks cid with
    | none =>
      have := hall_some cid hcid
      rw [hdf2] at this
      cases this
    | some c => rfl
  have hvis_mem : ∀ v ∈ vis,
      ∃ cid c, cid ∈ ids ∧ (cid, c) ∈ s.chunks ∧ c.vector_index = v := by
    intro v hv
    rw [hvis_eq, List.mem_filterMap] at hv
    obtain ⟨cid, hcid, hfc⟩ := hv
    cases hdf2 : dictFind? s.chunks cid with
    | none => rw [hdf2] at hfc; cases hfc
    | some c =>
      rw [hdf2] at hfc
      exact ⟨cid, c, hcid, dictFind?_mem _ _ _ hdf2, by simpa using hfc⟩
  have hvis_lt : ∀ v ∈ vis, v < s.index.length := by
    intro v hv
    obtain ⟨cid, c, _, hmem, hcv⟩ := hvis_mem v hv
    rw [← hcv]
    exact hvi_lt (cid, c) hmem
  have hvis_nodup : vis.Nodup := delChunks_vis_nodup ids s.chunks hids_nodup hvi_nodup
  have hchunks1 : chunks1 = s.chunks.filter (fun p => decide (p.1 ∉ ids)) :=
    delChunks_chunks_eq ids s.chunks
  have hsurv_not : ∀ p ∈ s.chunks, p.1 ∉ ids → p.2.vector_index ∉ vis := by
    intro p hp hpid hmem
    obtain ⟨cid, c, hcid, hmemc, hcv⟩ := hvis_mem _ hmem
    have heq : (cid, c) = p := List.inj_on_of_nodup_map hvi_nodup hmemc hp hcv
    rw [← heq] at hpid
    exact hpid hcid
  have hchunks_nodup : s.chunks.Nodup := List.Nodup.of_map _ hnd_keys
  have hchunks1_keys_nodup : (chunks1.map Prod.fst).Nodup := by
    rw [hchunks1]
    exact List.Nodup.sublist (List.Sublist.map _ (List.filter_sublist _)) hnd_keys
  have hchunks1_len : chunks1.length + ids.length = s.chunks.length := by
    have hfilter_in_len :
        ((s.chunks.filter (fun p => decide (p.1 ∈ ids))).map Prod.fst).length
          = ids.length := by
      apply length_eq_of_nodup_same_mem
      · exact List.Nodup.sublist (List.Sublist.map _ (List.filter_sublist _)) hnd_keys
      · exact hids_nodup
      · intro x
        constructor
        · intro hx
          obtain ⟨p, hp, rfl⟩ := List.mem_map.1 hx
          have := (List.mem_filter.1 hp).2
          simpa using this
        · intro hx
          obtain ⟨p, hp, hpk⟩ := List.mem_map.1 (hids_live x hx)
          exact List.mem_map.2 ⟨p, List.mem_filter.2 ⟨hp, by simp [hpk, hx]⟩, hpk⟩
    rw [List.length_map] at hfilter_in_len
    have hpart := length_filter_partition (fun p => decide (p.1 ∈ ids)) s.chunks
    have hcongr : s.chunks.filter (fun p => !(decide (p.1 ∈ ids))) =
        s.chunks.filter (fun p => decide (p.1 ∉ ids)) := by
      apply List.filter_congr
      intro x hx
      simp
    rw [hcongr] at hpart
    rw [hchunks1]
    omega
  have hmem_chunks1 : ∀ p, p ∈ chunks1 ↔ (p ∈ s.chunks ∧ p.1 ∉ ids) := by
    intro p
    rw [hchunks1, List.mem_filter]
    simp
  by_cases hvise : vis ≠ []
  · rw [if_pos hvise] at hdel
    by_cases hkeepe : (List.range s.index.length).filter (fun i => decide (i ∉ vis)) ≠ []
    · rw [if_pos hkeepe] at hdel
      rw [Prod.mk.injEq] at hdel
      obtain ⟨hb, hs'⟩ := hdel
      subst hb
      subst hs'
      set keep := (List.range s.index.length).filter (fun i => decide (i ∉ vis)) with hkeep_def
      have hkeep_sorted : List.Sorted (· < ·) keep :=
        List.Pairwise.filter _ (List.pairwise_lt_range s.index.length)
      have hkeep_len : keep.length + vis.length = s.index.length :=
        range_filter_not_mem_length s.index.length vis hvis_nodup hvis_lt
      have hkeep_mem : ∀ x, x ∈ keep ↔ (x < s.index.length ∧ x ∉ vis) := by
        intro x
        rw [hkeep_def, List.mem_filter, List.mem_range]
        simp
      have hsurv_in_keep : ∀ p ∈ s.chunks, p.1 ∉ ids → p.2.vector_index ∈ keep := by
        intro p hp hpid
        rw [hkeep_mem]
        exact ⟨hvi_lt p hp, hsurv_not p hp hpid⟩
      have hremap_fst : ∀ p : String × ChunkInfo,
          (if p.2.vector_index ∈ keep then
            (p.1, ChunkInfo.mk p.2.doc_id p.2.index (keep.indexOf p.2.vector_index)
              p.2.text p.2.created_at) else p).1 = p.1 := by
        intro p
        by_cases h : p.2.vector_index ∈ keep <;> simp [h]
      have hchunks1_nodup : chunks1.Nodup := by
        rw [hchunks1]
        exact List.Nodup.sublist (List.filter_sublist _) hchunks_nodup
      have hchunks2_mem : ∀ q ∈ s.chunks, q.1 ∉ ids → ∀ infoq,
          (q.1, infoq) ∈ chunks1.map (fun p => if p.2.vector_index ∈ keep then
            (p.1, ChunkInfo.mk p.2.doc_id p.2.index (keep.indexOf p.2.vector_index)
              p.2.text p.2.created_at) else p) →
          infoq = ChunkInfo.mk q.2.doc_id q.2.index (keep.indexOf q.2.vector_index)
            q.2.text q.2.created_at := by
        intro q hq hqid infoq hmem
        obtain ⟨pq, hpq, heq⟩ := List.mem_map.1 hmem
        have hpqfst : pq.1 = q.1 := by
          have hfst := congrArg Prod.fst heq
          rw [hremap_fst pq] at hfst
          exact hfst
        have hpq_chunks : pq ∈ s.chunks := ((hmem_chunks1 pq).1 hpq).1
        have hpq_eq_q : pq = q :=
          List.inj_on_of_nodup_map hnd_keys hpq_chunks hq hpqfst
        rw [hpq_eq_q, if_pos (hsurv_in_keep q hq hqid)] at heq
        exact (congrArg Prod.snd heq).symm
      refine ⟨rfl, rfl, rfl, rfl, ?_, ?_, ?_, ?_, ⟨?_, ?_, ?_⟩, ?_⟩
      · show (keep.map (fun i => s.index.getD i [])).length + ids.length = s.index.length
        rw [List.length_map]
        omega
      · show ((chunks1.map (fun p => if p.2.vector_index ∈ keep then
            (p.1, ChunkInfo.mk p.2.doc_id p.2.index (keep.indexOf p.2.vector_index)
              p.2.text p.2.created_at) else p)).map Prod.fst) =
          (s.chunks.filter (fun p => decide (p.1 ∉ ids))).map Prod.fst
        have hmc : chunks1.map (Prod.fst ∘ (fun p => if p.2.vector_index ∈ keep then
            (p.1, ChunkInfo.mk p.2.doc_id p.2.index (keep.indexOf p.2.vector_index)
              p.2.text p.2.created_at) else p)) = chunks1.map Prod.fst :=
          List.map_congr_left (fun p _ => hremap_fst p)
        rw [List.map_map, hmc, hchunks1]
      · show ((chunks1.map (fun p => if p.2.vector_index ∈ keep then
            (p.1, ChunkInfo.mk p.2.doc_id p.2.index (keep.indexOf p.2.vector_index)
              p.2.text p.2.created_at) else p)).length) + ids.length = s.chunks.length
        rw [List.length_map]
        exact hchunks1_len
      · intro p hp hpid
        have hpinkeep := hsurv_in_keep p hp hpid
        have hidxlt := List.indexOf_lt_length.2 hpinkeep
        refine ⟨ChunkInfo.mk p.2.doc_id p.2.index (keep.indexOf p.2.vector_index)
          p.2.text p.2.created_at, ?_, ?_, ?_, ?_⟩
        · show (p.1, _) ∈ chunks1.map (fun p => if p.2.vector_index ∈ keep then
            (p.1, ChunkInfo.mk p.2.doc_id p.2.index (keep.indexOf p.2.vector_index)
              p.2.text p.2.created_at) else p)
          apply List.mem_map.2
          refine ⟨p, (hmem_chunks1 p).2 ⟨hp, hpid⟩, ?_⟩
          rw [if_pos hpinkeep]
        · show keep.indexOf p.2.vector_index < (keep.map (fun i => s.index.getD i [])).length
          rw [List.length_map]
          exact hidxlt
        · show (keep.map (fun i => s.index.getD i []))[keep.indexOf p.2.vector_index]?
            = s.index[p.2.vector_index]?
          rw [List.getElem?_map, List.getElem?_eq_getElem hidxlt, Option.map_some',
            List.getElem_indexOf hidxlt,
            List.getElem?_eq_getElem (hvi_lt p hp)]
          congr 1
          rw [List.getD_eq_getElem?_getD, List.getElem?_eq_getElem (hvi_lt p hp)]
          rfl
        · intro q hq hqid infoq hinfoq
          rw [hchunks2_mem q hq hqid infoq hinfoq]
          show p.2.vector_index < q.2.vector_index ↔
            keep.indexOf p.2.vector_index < keep.indexOf q.2.vector_index
          have hqinkeep := hsurv_in_keep q hq hqid
          constructor
          · exact fun h => indexOf_lt_indexOf_of_sorted hkeep_sorted hpinkeep hqinkeep h
          · intro h
            by_contra hge
            push_neg at hge
            rcases Nat.eq_or_lt_of_le hge with heq | hlt
            · rw [← heq] at h
              exact absurd h (lt_irrefl _)
            · have := indexOf_lt_indexOf_of_sorted hkeep_sorted hqinkeep hpinkeep hlt
              omega
      · show ((chunks1.map (fun p => if p.2.vector_index ∈ keep then
            (p.1, ChunkInfo.mk p.2.doc_id p.2.index (keep.indexOf p.2.vector_index)
              p.2.text p.2.created_at) else p)).length) =
          (keep.map (fun i => s.index.getD i [])).length
        rw [List.length_map, List.length_map]
        omega
      · show (((chunks1.map (fun p => if p.2.vector_index ∈ keep then
            (p.1, ChunkInfo.mk p.2.doc_id p.2.index (keep.indexOf p.2.vector_index)
              p.2.text p.2.created_at) else p))).map (fun p => p.2.vector_index)).Nodup
        have hpoint : ∀ p ∈ chunks1,
            ((fun p => p.2.vector_index) ∘ (fun p => if p.2.vector_index ∈ keep then
              (p.1, ChunkInfo.mk p.2.doc_id p.2.index (keep.indexOf p.2.vector_index)
                p.2.text p.2.created_at) else p)) p
            = keep.indexOf p.2.vector_index := by
          intro p hp
          obtain ⟨hp1, hp2⟩ := (hmem_chunks1 p).1 hp
          show (if p.2.vector_index ∈ keep then
            (p.1, ChunkInfo.mk p.2.doc_id p.2.index (keep.indexOf p.2.vector_index)
              p.2.text p.2.created_at) else p).2.vector_index = _
          rw [if_pos (hsurv_in_keep p hp1 hp2)]
        rw [List.map_map, List.map_congr_left hpoint]
        apply List.Nodup.map_on ?_ hchunks1_nodup
        intro x hx y hy hxy
        obtain ⟨hx1, hx2⟩ := (hmem_chunks1 x).1 hx
        obtain ⟨hy1, hy2⟩ := (hmem_chunks1 y).1 hy
        have hvieq : x.2.vector_index = y.2.vector_index :=
          (List.indexOf_inj (hsurv_in_keep x hx1 hx2) (hsurv_in_keep y hy1 hy2)).1 hxy
        exact List.inj_on_of_nodup_map hvi_nodup hx1 hy1 hvieq
      · intro p hp
        obtain ⟨xq, hxq, heq⟩ := List.mem_map.1 hp
        obtain ⟨h1, h2⟩ := (hmem_chunks1 xq).1 hxq
        show p.2.vector_index < (keep.map (fun i => s.index.getD i [])).length
        rw [List.length_map, ← heq]
        show (if xq.2.vector_index ∈ keep then
          (xq.1, ChunkInfo.mk xq.2.doc_id xq.2.index (keep.indexOf xq.2.vector_index)
            xq.2.text xq.2.created_at) else xq).2.vector_index < keep.length
        rw [if_pos (hsurv_in_keep xq h1 h2)]
        exact List.indexOf_lt_length.2 (hsurv_in_keep xq h1 h2)
      · show (((chunks1.map (fun p => if p.2.vector_index ∈ keep then
            (p.1, ChunkInfo.mk p.2.doc_id p.2.index (keep.indexOf p.2.vector_index)
              p.2.text p.2.created_at) else p))).map Prod.fst).Nodup
        have hmc : chunks1.map (Prod.fst ∘ (fun p => if p.2.vector_index ∈ keep then
            (p.1, ChunkInfo.mk p.2.doc_id p.2.index (keep.indexOf p.2.vector_index)
              p.2.text p.2.created_at) else p)) = chunks1.map Prod.fst :=
          List.map_congr_left (fun p _ => hremap_fst p)
        rw [List.map_map, hmc]
        exact hchunks1_keys_nodup
    · rw [if_neg hkeepe] at hdel
      rw [Prod.mk.injEq] at hdel
      obtain ⟨hb, hs'⟩ := hdel
      subst hb
      subst hs'
      push_neg at hkeepe
      have hnokeep : ∀ x, x < s.index.length → x ∈ vis := by
        intro x hx
        by_contra hxv
        have hxin : x ∈ (List.range s.index.length).filter (fun i => decide (i ∉ vis)) :=
          List.mem_filter.2 ⟨List.mem_range.2 hx, by simpa using hxv⟩
        rw [hkeepe] at hxin
        cases hxin
      have hnosurv : ∀ p ∈ s.chunks, p.1 ∉ ids → False := by
        intro p hp hpid
        exact hsurv_not p hp hpid (hnokeep _ (hvi_lt p hp))
      have hchunks1_nil : chunks1 = [] := by
        rw [List.eq_nil_iff_forall_not_mem]
        intro p hp
        obtain ⟨h1, h2⟩ := (hmem_chunks1 p).1 hp
        exact hnosurv p h1 h2
      have hkl := range_filter_not_mem_length s.index.length vis hvis_nodup hvis_lt
      rw [hkeepe] at hkl
      refine ⟨rfl, rfl, rfl, rfl, ?_, ?_, ?_, ?_, ⟨?_, ?_, ?_⟩, ?_⟩
      · show ([] : List (List ℚ)).length + ids.length = s.index.length
        rw [List.length_nil] at hkl ⊢
        omega
      · show chunks1.map Prod.fst = _
        rw [hchunks1]
      · show chunks1.length + ids.length = s.chunks.length
        exact hchunks1_len
      · intro p hp hpid
        exact (hnosurv p hp hpid).elim
      · show chunks1.length = ([] : List (List ℚ)).length
        rw [hchunks1_nil]
        rfl
      · show (chunks1.map (fun p => p.2.vector_index)).Nodup
        rw [hchunks1_nil]
        exact List.nodup_nil
      · intro p hp
        have hp' : p ∈ chunks1 := hp
        rw [hchunks1_nil] at hp'
        cases hp'
      · exact hchunks1_keys_nodup
  · rw [if_neg hvise] at hdel
    rw [Prod.mk.injEq] at hdel
    obtain ⟨hb, hs'⟩ := hdel
    subst hb
    subst hs'
    push_neg at hvise
    have hids_nil : ids = [] := by
      apply List.eq_nil_of_length_eq_zero
      rw [← hvis_len, hvise]
      rfl
    have hchunks1_id : chunks1 = s.chunks := by
      rw [hchunks1, hids_nil]
      simp
    refine ⟨rfl, rfl, rfl, rfl, ?_, ?_, ?_, ?_, ⟨?_, ?_, ?_⟩, ?_⟩
    · show s.index.length + ids.length = s.index.length
      rw [hids_nil]
      rfl
    · show chunks1.map Prod.fst = _
      rw [hchunks1]
    · show chunks1.length + ids.length = s.chunks.length
      exact hchunks1_len
    · intro p hp hpid
      refine ⟨p.2, ?_, ?_, ?_, ?_⟩
      · show (p.1, p.2) ∈ chunks1
        rw [hchunks1_id, Prod.mk.eta]
        exact hp
      · show p.2.vector_index < s.index.length
        exact hvi_lt p hp
      · rfl
      · intro q hq hqid infoq hinfoq
        have hinfoq' : (q.1, infoq) ∈ s.chunks := by
          rw [← hchunks1_id]
          exact hinfoq
        have heqq : (q.1, infoq) = q :=
          List.inj_on_of_nodup_map hnd_keys hinfoq' hq rfl
        have : infoq = q.2 := congrArg Prod.snd heqq
        rw [this]
    · show chunks1.length = s.index.length
      rw [hchunks1_id]
      exact hcount
    · show (chunks1.map (fun p => p.2.vector_index)).Nodup
      rw [hchunks1_id]
      exact hvi_nodup
    · intro p hp
      have hp' : p ∈ chunks1 := hp
      rw [hchunks1_id] at hp'
      exact hvi_lt p hp'
    · exact hchunks1_keys_nodup

/-! ### Claim C1: delete_document contract -/

/-- C1: deleting an absent document ID returns false and leaves the state
unchanged; deleting a present one returns true, after which the document
no longer resolves, none of its former chunk ids resolve, the vector
count has decreased by exactly the deleted document's chunk count, and
every surviving chunk's vector_index is remapped (surviving original
positions compacted in ascending order) so that it still dereferences to
the same stored vector as before the deletion. -/
theorem C1_delete_document (s : VectorDB) (doc_id : String) (hWf : Wf s) :
    (dictFind? s.documents doc_id = none →
      delete_document s (PyId.str doc_id) = (false, s)) ∧
    (∀ doc, dictFind? s.documents doc_id = some doc →
      ∀ b s', delete_document s (PyId.str doc_id) = (b, s') →
        b = true ∧
        get_document_by_id s' (PyId.str doc_id) = none ∧
        (∀ cid ∈ doc.chunk_ids.getD [], get_chunk_by_id s' (PyId.str cid) = none) ∧
        (get_stats s').vector_count + doc.chunk_count = (get_stats s).vector_count ∧
        (∀ p ∈ s.chunks, p.1 ∉ doc.chunk_ids.getD [] →
          ∃ info', (p.1, info') ∈ s'.chunks ∧
            info'.vector_index < s'.index.length ∧
            s'.index[info'.vector_index]? = s.index[p.2.vector_index]? ∧
            ∀ q ∈ s.chunks, q.1 ∉ doc.chunk_ids.getD [] →
              ∀ infoq, (q.1, infoq) ∈ s'.chunks →
                (p.2.vector_index < q.2.vector_index ↔
                  info'.vector_index < infoq.vector_index))) := by
  constructor
  · intro h
    simp [delete_document, pyStr, h]
  · intro doc hfind b s' hdel
    obtain ⟨hb, hdocs_eq, _, _, hlen_eq, hkeys_eq, _, hsurv, _, _⟩ :=
      delete_document_present s doc_id doc hWf hfind b s' hdel
    obtain ⟨_, _, _, _, _, hdocs⟩ := hWf
    obtain ⟨_, _, hcc, _⟩ := hdocs (doc_id, doc) (dictFind?_mem _ _ _ hfind)
    refine ⟨hb, ?_, ?_, ?_, hsurv⟩
    · show dictFind? s'.documents doc_id = none
      rw [hdocs_eq]
      exact dictFind?_erase_self _ _
    · intro cid hcid
      show dictFind? s'.chunks cid = none
      rw [dictFind?_eq_none]
      intro hmem
      rw [hkeys_eq] at hmem
      obtain ⟨p, hp, hpk⟩ := List.mem_map.1 hmem
      have hnot := (List.mem_filter.1 hp).2
      rw [hpk] at hnot
      simp at hnot
      exact hnot hcid
    · show s'.index.length + doc.chunk_count = s.index.length
      rw [hcc]
      exact hlen_eq

/-- Witness for C1_delete_document: the concrete store sampleStore with
its present document "0". -/
theorem C1_delete_document_witness :
    Wf sampleStore ∧
    ((dictFind? sampleStore.documents "0" = none →
      delete_document sampleStore (PyId.str "0") = (false, sampleStore)) ∧
    (∀ doc, dictFind? sampleStore.documents "0" = some doc →
      ∀ b s', delete_document sampleStore (PyId.str "0") = (b, s') →
        b = true ∧
        get_document_by_id s' (PyId.str "0") = none ∧
        (∀ cid ∈ doc.chunk_ids.getD [], get_chunk_by_id s' (PyId.str cid) = none) ∧
        (get_stats s').vector_count + doc.chunk_count =
          (get_stats sampleStore).vector_count ∧
        (∀ p ∈ sampleStore.chunks, p.1 ∉ doc.chunk_ids.getD [] →
          ∃ info', (p.1, info') ∈ s'.chunks ∧
            info'.vector_index < s'.index.length ∧
            s'.index[info'.vector_index]? = sampleStore.index[p.2.vector_index]? ∧
            ∀ q ∈ sampleStore.chunks, q.1 ∉ doc.chunk_ids.getD [] →
              ∀ infoq, (q.1, infoq) ∈ s'.chunks →
                (p.2.vector_index < q.2.vector_index ↔
                  info'.vector_index < infoq.vector_index)))) :=
  ⟨by decide, C1_delete_document sampleStore "0" (by decide)⟩

/-! ### Claim C4: the core invariant is preserved by add and delete -/

/-- C4: in every state reachable from a well-formed one by add_document
(success or any failure) or delete_document (either branch), the vector
count equals the live chunk count and the chunks' vector_index values
are pairwise distinct and in range `[0, vector_count)`. -/
theorem C4_core_invariant (s : VectorDB) (hWf : Wf s) :
    (∀ title file_path chunks embeddings now,
      (∀ did s', add_document s title file_path chunks embeddings now =
          Except.ok (did, s') → CoreInv s') ∧
      (∀ msg s', add_document s title file_path chunks embeddings now =
          Except.error (msg, s') → CoreInv s')) ∧
    (∀ arg b s', delete_document s arg = (b, s') → CoreInv s') := by
  have hWf' := hWf
  obtain ⟨hnd1, hnd2, hcore, hdf, hcf, hdocs⟩ := hWf'
  obtain ⟨hcount, hvi_nodup, hvi_lt⟩ := hcore
  constructor
  · intro title file_path chunks embeddings now
    by_cases h1 : chunks.length = 0 ∨ embeddings.length = 0
    · constructor
      · intro did s' h
        rw [add_document, if_pos h1] at h
        cases h
      · intro msg s' h
        rw [add_document, if_pos h1, Except.error.injEq, Prod.mk.injEq] at h
        rw [← h.2]
        exact ⟨hcount, hvi_nodup, hvi_lt⟩
    · by_cases h2 : chunks.length ≠ embeddings.length
      · constructor
        · intro did s' h
          rw [add_document, if_neg h1, if_pos h2] at h
          cases h
        · intro msg s' h
          rw [add_document, if_neg h1, if_pos h2, Except.error.injEq,
            Prod.mk.injEq] at h
          rw [← h.2]
          exact ⟨hcount, hvi_nodup, hvi_lt⟩
      · push_neg at h2
        by_cases h3 : embeddings.all (fun e => decide (e.length = s.dimension)) = true
        · have hne : chunks.length ≠ 0 := by
            intro hc
            exact h1 (Or.inl hc)
          have hdim : ∀ e ∈ embeddings, e.length = s.dimension := by
            rw [List.all_eq_true] at h3
            intro e he
            simpa using h3 e he
          have hspec := add_document_ok_spec s title file_path now chunks embeddings
            hdf hcf hne h2 hdim
          constructor
          · intro did s' h
            rw [hspec, Except.ok.injEq, Prod.mk.injEq] at h
            rw [← h.2]
            refine ⟨?_, ?_, ?_⟩
            · show (s.chunks ++ chunkEntries (toString s.next_doc_id) now
                s.index.length chunks 0 s.next_chunk_id).length =
                (s.index ++ embeddings).length
              rw [List.length_append, List.length_append, chunkEntries_length]
              omega
            · show ((s.chunks ++ chunkEntries (toString s.next_doc_id) now
                s.index.length chunks 0 s.next_chunk_id).map
                  (fun p => p.2.vector_index)).Nodup
              rw [List.map_append]
              apply List.Nodup.append hvi_nodup (chunkEntries_vi_nodup _ _ _ _ _ _)
              intro x hx hx'
              obtain ⟨p, hp, hpx⟩ := List.mem_map.1 hx
              obtain ⟨q, hq, hqx⟩ := List.mem_map.1 hx'
              obtain ⟨j, hj, _, hvij, _, _⟩ :=
                chunkEntries_mem _ _ _ _ _ _ q hq
              have hlt := hvi_lt p hp
              rw [hpx] at hlt
              rw [hvij] at hqx
              omega
            · intro p hp
              show p.2.vector_index < (s.index ++ embeddings).length
              rw [List.length_append]
              rcases List.mem_append.1 hp with hp | hp
              · have := hvi_lt p hp
                omega
              · obtain ⟨j, hj, _, hvij, _, _⟩ :=
                  chunkEntries_mem _ _ _ _ _ _ p hp
                rw [hvij]
                omega
          · intro msg s' h
            rw [hspec] at h
            cases h
        · constructor
          · intro did s' h
            simp only [add_document, if_neg h1, if_neg (show ¬ chunks.length ≠
              embeddings.length from fun hc => hc h2), h3] at h
            rw [if_neg (by simp [h3])] at h
            cases h
          · intro msg s' h
            simp only [add_document, if_neg h1, if_neg (show ¬ chunks.length ≠
              embeddings.length from fun hc => hc h2)] at h
            rw [if_neg (by simp [h3]), Except.error.injEq, Prod.mk.injEq] at h
            rw [← h.2]
            exact ⟨hcount, hvi_nodup, hvi_lt⟩
  · intro arg b s' hdel
    cases hf : dictFind? s.documents (pyStr arg) with
    | none =>
      simp only [delete_document, hf, Prod.mk.injEq] at hdel
      rw [← hdel.2]
      exact ⟨hcount, hvi_nodup, hvi_lt⟩
    | some doc =>
      have harg : delete_document s arg = delete_document s (PyId.str (pyStr arg)) := rfl
      obtain ⟨_, _, _, _, _, _, _, _, hCore, _⟩ :=
        delete_document_present s (pyStr arg) doc hWf hf b s' (harg.symm.trans hdel)
      exact hCore

/-- Witness for C4_core_invariant at the concrete store sampleStore. -/
theorem C4_core_invariant_witness :
    Wf sampleStore ∧
    (∀ arg b s', delete_document sampleStore arg = (b, s') → CoreInv s') :=
  ⟨by decide, (C4_core_invariant sampleStore (by decide)).2⟩
